import Mathlib

/-!
Verification of the mempool archiver (flashbots/mempool-dumpster style codebase):
a shallow embedding of `common/types.go` (transaction summary data model, CSV
loader, `parseTx`), `cmd/merge/transactions.go` (the merger), and the analyzer
(`latencyComp`), together with proofs and refutations of the specification
claims about them.

Modelling conventions:
* Go strings are Lean `String`s; `len` on a Go string is the UTF-8 byte length,
  modelled by `utf8Len`.
* Go maps are modelled as association lists in insertion order (`alookup`,
  `mapInsert`); Go map reads of a missing key yield the zero value, modelled
  with `Option.getD`.
* go-ethereum's RLP transaction decoder (`RLPStringToTx`, external library
  code) is a parameter `decode : String → Option DecodedTx` throughout.
* Machine integers (`int64`) are `Int` with explicit range checks where the
  source checks them (`strconv.Atoi`).
-/

namespace Mempool

/-! ### String primitives (models of the Go standard library calls used) -/

/-- UTF-8 byte size of one character, as Go counts string bytes. -/
def charUtf8Size (c : Char) : Nat :=
  if c.toNat < 0x80 then 1
  else if c.toNat < 0x800 then 2
  else if c.toNat < 0x10000 then 3
  else 4

/-- Model of Go `len(s)` for a string: the UTF-8 byte length. -/
def utf8Len (s : String) : Nat :=
  s.toList.foldl (fun n c => n + charUtf8Size c) 0

/-- ASCII lower-casing of one character (hashes and hex strings are ASCII,
so this matches Go `strings.ToLower` on all inputs the loader sees). -/
def lowerChar (c : Char) : Char :=
  if 'A' ≤ c ∧ c ≤ 'Z' then Char.ofNat (c.toNat + 32) else c

/-- Model of Go `strings.ToLower` (ASCII range). -/
def toLowerStr (s : String) : String :=
  String.mk (s.toList.map lowerChar)

/-- Split a character list at commas. -/
def splitCommaAux : List Char → List Char → List (List Char)
  | [], cur => [cur.reverse]
  | c :: rest, cur =>
      if c = ',' then cur.reverse :: splitCommaAux rest []
      else splitCommaAux rest (c :: cur)

/-- Model of Go `strings.Split(s, ",")`. -/
def splitComma (s : String) : List String :=
  (splitCommaAux s.toList []).map String.mk

/-- Model of Go `strings.Trim(s, "\n")`: remove leading and trailing newlines. -/
def trimNewlines (s : String) : String :=
  String.mk (((s.toList.dropWhile (· = '\n')).reverse.dropWhile (· = '\n')).reverse)

/-- Decimal digit test. -/
def isDigitCh (c : Char) : Bool := '0' ≤ c ∧ c ≤ '9'

/-- Value of a nonempty all-digit character list, `none` otherwise. -/
def digitsVal (cs : List Char) : Option Nat :=
  if cs.isEmpty then none
  else
    cs.foldl
      (fun acc c =>
        match acc with
        | none => none
        | some n => if isDigitCh c then some (n * 10 + (c.toNat - 48)) else none)
      (some 0)

/-- Smallest Go `int` (64-bit) value. -/
def int64Min : Int := -(2 ^ 63)

/-- Largest Go `int` (64-bit) value. -/
def int64Max : Int := 2 ^ 63 - 1

/-- Model of Go `strconv.Atoi`: optional sign, then decimal digits; errors
(`none`) on empty input, stray characters, and 64-bit range overflow. -/
def atoi (s : String) : Option Int :=
  match s.toList with
  | [] => none
  | c :: rest =>
      let signed : Bool × List Char :=
        if c = '-' then (true, rest)
        else if c = '+' then (false, rest)
        else (false, c :: rest)
      match digitsVal signed.2 with
      | none => none
      | some n =>
          let v : Int := if signed.1 then -(n : Int) else (n : Int)
          if v < int64Min ∨ int64Max < v then none else some v

/-- Lower-case hex digit for a value below 16. -/
def hexChar (n : Nat) : Char :=
  if n < 10 then Char.ofNat (48 + n) else Char.ofNat (87 + n)

/-- Two lower-case hex digits of one byte. -/
def byteHex (b : Nat) : List Char := [hexChar (b / 16 % 16), hexChar (b % 16)]

/-- Model of go-ethereum `hexutil.Encode`: `0x` followed by lower-case hex. -/
def hexEncode (bs : List Nat) : String :=
  String.mk ('0' :: 'x' :: bs.foldr (fun b acc => byteHex b ++ acc) [])

/-- `common.Address{}.Hex()` in go-ethereum: the zero address rendered as hex. -/
def zeroAddressHex : String :=
  String.mk ('0' :: 'x' :: List.replicate 40 '0')

/-! ### Association lists as Go maps -/

/-- Go map read: first (only) binding of a key, if present. -/
def alookup {β : Type} : List (String × β) → String → Option β
  | [], _ => none
  | p :: rest, k => if p.1 = k then some p.2 else alookup rest k

/-- Go map write: replace the binding if the key is present, else append. -/
def mapInsert {β : Type} (m : List (String × β)) (k : String) (v : β) :
    List (String × β) :=
  if (alookup m k).isSome then m.map (fun p => if p.1 = k then (k, v) else p)
  else m ++ [(k, v)]

/-! ### Data model (`common/types.go`)

The first twelve fields are the decoded columns of `TxSummaryEntry` as declared
in `common/types.go`. The remaining fields (`RawTx`, `Sources`,
`IncludedAtBlockHeight`, `IncludedBlockTimestamp`, `InclusionDelayMs`) are the
enriched fields of the merger's version of the struct; their declarations are
repository code outside the provided sources and are modelled from the spec
(§3 "Enriched TxSummary"), with Go zero values as defaults. -/

structure TxSummaryEntry where
  Timestamp : Int
  Hash : String
  ChainID : String
  From : String
  To : String
  Value : String
  Nonce : String
  Gas : String
  GasPrice : String
  GasTipCap : String
  GasFeeCap : String
  DataSize : Int
  Data4Bytes : String
  RawTx : String := ""
  Sources : List String := []
  IncludedAtBlockHeight : Int := 0
  IncludedBlockTimestamp : Int := 0
  InclusionDelayMs : Int := 0
deriving Repr, DecidableEq

/-- `TxEnvelope` from `common/types.go`: the raw RLP string next to the
decoded summary. -/
structure TxEnvelope where
  Rlp : String
  Summary : TxSummaryEntry
deriving Repr, DecidableEq

/-- `TxSummaryEntry.ToCSVRow` from `common/types.go`. -/
def TxSummaryEntry.ToCSVRow (t : TxSummaryEntry) : List String :=
  [toString t.Timestamp, t.Hash, t.ChainID, t.From, t.To, t.Value,
   t.Nonce, t.Gas, t.GasPrice, t.GasTipCap, t.GasFeeCap,
   toString t.DataSize, t.Data4Bytes]

/-- `TxSummaryEntryCSVHeader` from `common/types.go`. -/
def TxSummaryEntryCSVHeader : List String :=
  ["timestamp_ms", "hash", "chain_id", "from", "to", "value", "nonce",
   "gas", "gas_price", "gas_tip_cap", "gas_fee_cap", "data_size", "data_4bytes"]

/-- Modelled from the spec: `TxSummaryEntry.RawTxHex` (merger repository code
outside the provided sources) returns the raw transaction hex used for the
`raw_tx` column of the re-hydration CSV (§4.6). -/
def TxSummaryEntry.RawTxHex (t : TxSummaryEntry) : String := t.RawTx

/-- Modelled from the spec: `TxSummaryEntry.HasSource` (merger repository code
outside the provided sources) reports whether a source tag occurs in the
entry's `Sources` sequence (§4.7 "with both source and reference in sources"). -/
def TxSummaryEntry.HasSource (t : TxSummaryEntry) (s : String) : Bool :=
  t.Sources.contains s

/-! ### The decoded transaction and `parseTx`

`DecodedTx` models the result of go-ethereum's transaction decoding together
with the accessor values `parseTx` reads off it.  `senderHex`/`senderOk` model
the two return values of `types.Sender`: go-ethereum returns the zero value
`common.Address{}` alongside the error when signature recovery fails, so a
`DecodedTx` with `senderOk = false` carries `senderHex = zeroAddressHex`. -/

structure DecodedTx where
  chainId : Int
  hashHex : String
  senderHex : String
  senderOk : Bool
  toHex : Option String
  value : Int
  nonce : Nat
  gas : Nat
  gasPrice : Int
  gasTipCap : Int
  gasFeeCap : Int
  data : List Nat
deriving Repr, DecidableEq

/-- `parseTx` from `common/types.go`.  The `hash` argument is accepted and
ignored, as in the source; the error from `types.Sender` is discarded and the
address value (zero address on failure) is used for `From`. -/
def parseTx (decode : String → Option DecodedTx) (timestampMs : Int)
    (hash rawTx : String) : Option TxSummaryEntry :=
  match decode rawTx with
  | none => none
  | some tx =>
      let toAddr : String := match tx.toHex with
        | none => ""
        | some a => a
      let data4Bytes : String :=
        if 4 ≤ tx.data.length then hexEncode (tx.data.take 4) else ""
      some
        { Timestamp := timestampMs
          Hash := tx.hashHex
          ChainID := toString tx.chainId
          From := tx.senderHex
          To := toAddr
          Value := toString tx.value
          Nonce := toString tx.nonce
          Gas := toString tx.gas
          GasPrice := toString tx.gasPrice
          GasTipCap := toString tx.gasTipCap
          GasFeeCap := toString tx.gasFeeCap
          DataSize := (tx.data.length : Int)
          Data4Bytes := data4Bytes }

/-! ### The metadata-hash loader (`LoadTxHashesFromMetadataCSVFiles`)

The Go function parses each metadata CSV with `encoding/csv` and collects the
lower-cased column-1 value of every record with at least two columns into a
set.  Files are modelled at the record level (the stdlib CSV parser is
external); the file-system variant below additionally models the early
`return` taken when a file cannot be opened or parsed. -/

/-- One metadata record's contribution: records with fewer than two columns
are skipped, otherwise the lower-cased column-1 value is added. -/
def metadataRecordStep1 (txs : List String) (record : List String) :
    List String :=
  match record with
  | _ :: h :: _ => txs ++ [toLowerStr h]
  | _ => txs

/-- One metadata file's contribution: fold its records into the accumulated
hash list. -/
def metadataRecordsStep (txs : List String) (records : List (List String)) :
    List String :=
  records.foldl metadataRecordStep1 txs

/-- `LoadTxHashesFromMetadataCSVFiles` from `common/types.go`, over file
contents (every file readable).  Membership in the result models the Go set
`map[txHash]bool`. -/
def LoadTxHashesFromMetadataCSVFiles (files : List (List (List String))) :
    List String :=
  files.foldl metadataRecordsStep []

/-! ### The transactions-CSV loader (`LoadTransactionCSVFiles`)

One line of a transactions CSV is processed as in the source: lines of fewer
than 66 bytes are skipped, the line is trimmed of newlines and split at
commas, exactly three fields are required, the timestamp must parse with
`strconv.Atoi`, the hash is lower-cased, blacklisted hashes are skipped,
duplicate hashes only lower the stored timestamp, and new hashes are decoded
with `parseTx` and stored. -/

/-- Lower the stored timestamp of hash `h` to `ts` if smaller (the duplicate
branch of the loader loop). -/
def updateTsMin (txs : List (String × TxEnvelope)) (h : String) (ts : Int) :
    List (String × TxEnvelope) :=
  txs.map
    (fun p =>
      if p.1 = h then
        (p.1,
          if ts < p.2.Summary.Timestamp then
            ⟨p.2.Rlp, { p.2.Summary with Timestamp := ts }⟩
          else p.2)
      else p)

/-- The loader body after all line-format checks passed: dedupe or decode and
store. -/
def applyRecord (decode : String → Option DecodedTx)
    (txs : List (String × TxEnvelope)) (h : String) (ts : Int) (rlp : String) :
    List (String × TxEnvelope) :=
  match alookup txs h with
  | some _ => updateTsMin txs h ts
  | none =>
      match parseTx decode ts h rlp with
      | none => txs
      | some s => txs ++ [(h, ⟨rlp, s⟩)]

/-- One iteration of the loader's line loop from `common/types.go`: length
check, trim, split, field-count check, timestamp parse, hash lower-casing,
blacklist filter, then dedupe or decode-and-store. -/
def processLine (decode : String → Option DecodedTx) (known : List String)
    (txs : List (String × TxEnvelope)) (l : String) :
    List (String × TxEnvelope) :=
  if utf8Len l < 66 then txs
  else
    let items := splitComma (trimNewlines l)
    if items.length ≠ 3 then txs
    else
      match atoi (items.getD 0 "") with
      | none => txs
      | some ts =>
          let txHash := toLowerStr (items.getD 1 "")
          if known.contains txHash then txs
          else applyRecord decode txs txHash ts (items.getD 2 "")

/-- All lines of one file, in order. -/
def loadLines (decode : String → Option DecodedTx) (known : List String)
    (txs : List (String × TxEnvelope)) (lines : List String) :
    List (String × TxEnvelope) :=
  lines.foldl (processLine decode known) txs

/-- `LoadTransactionCSVFiles` from `common/types.go`, over file contents
(every file readable): load the blacklist, then fold every line of every
file. -/
def LoadTransactionCSVFiles (decode : String → Option DecodedTx)
    (files : List (List String)) (knownFiles : List (List (List String))) :
    List (String × TxEnvelope) :=
  let known := LoadTxHashesFromMetadataCSVFiles knownFiles
  files.foldl (fun txs lines => loadLines decode known txs lines) []

/-! ### Line-level analysis helpers

`lineRecord` packages the format checks and blacklist filter of one loader
iteration; `processLine_eq_lineRecord` below proves it equivalent to
`processLine`. -/

/-- The parsed `(lower-cased hash, timestamp, raw tx)` of a line that passes
every check of the loader loop before the map is touched. -/
def lineRecord (known : List String) (l : String) :
    Option (String × Int × String) :=
  if utf8Len l < 66 then none
  else
    let items := splitComma (trimNewlines l)
    if items.length ≠ 3 then none
    else
      match atoi (items.getD 0 "") with
      | none => none
      | some ts =>
          let txHash := toLowerStr (items.getD 1 "")
          if known.contains txHash then none
          else some (txHash, ts, items.getD 2 "")

/-- The in-order `(timestamp, raw tx)` occurrences of hash `h` among `lines`:
the lines that pass all format checks and the blacklist filter and whose
lower-cased hash is `h`. -/
def occsOfLines (known : List String) (h : String) (lines : List String) :
    List (Int × String) :=
  lines.filterMap
    (fun l =>
      match lineRecord known l with
      | some (h2, ts, rlp) => if h2 = h then some (ts, rlp) else none
      | none => none)

/-- Per-key state machine of the loader: the effect of one occurrence of hash
`h` on the map entry stored under `h`. -/
def stepKey (decode : String → Option DecodedTx) (h : String)
    (st : Option TxEnvelope) (o : Int × String) : Option TxEnvelope :=
  match st with
  | some e =>
      some
        (if o.1 < e.Summary.Timestamp then
          ⟨e.Rlp, { e.Summary with Timestamp := o.1 }⟩
        else e)
  | none =>
      match parseTx decode o.1 h o.2 with
      | none => none
      | some s => some ⟨o.2, s⟩

/-- Reference description of the entry finally stored for hash `h`, given its
occurrence list: the first occurrence whose decode succeeds, with `Timestamp`
lowered to the minimum over that occurrence and all later ones. -/
def storedEntryRef (decode : String → Option DecodedTx) (h : String) :
    List (Int × String) → Option TxEnvelope
  | [] => none
  | (ts, rlp) :: rest =>
      match parseTx decode ts h rlp with
      | none => storedEntryRef decode h rest
      | some s =>
          some ⟨rlp, { s with Timestamp := rest.foldl (fun m o => min m o.1) ts }⟩

/-! ### File-system level loaders

`FS` models the file system the merger sees.  `txFile` returns the lines of a
readable line-oriented CSV (transactions or sourcelog), `metaFile` the parsed
records of a readable metadata CSV, `none` modelling `os.Open` /
`csv.ReadAll` failure.  `pathExists` backs the output-overwrite checks. -/

structure FS where
  pathExists : String → Bool
  txFile : String → Option (List String)
  metaFile : String → Option (List (List String))

/-- `LoadTxHashesFromMetadataCSVFiles` over the file system: a file that
cannot be opened or parsed triggers the source's early `return`, yielding the
hashes accumulated so far (files after it are not loaded). -/
def loadMetaFSAux (fs : FS) : List String → List String → List String
  | acc, [] => acc
  | acc, f :: rest =>
      match fs.metaFile f with
      | none => acc
      | some records => loadMetaFSAux fs (metadataRecordsStep acc records) rest

/-- File-system variant of `LoadTxHashesFromMetadataCSVFiles`. -/
def LoadTxHashesFromMetadataCSVFilesFS (fs : FS) (files : List String) :
    List String :=
  loadMetaFSAux fs [] files

/-- `LoadTransactionCSVFiles` over the file system: a transactions CSV that
cannot be opened triggers the source's early `return`, yielding the map
accumulated so far. -/
def loadTxFilesFSAux (decode : String → Option DecodedTx) (fs : FS)
    (known : List String) :
    List (String × TxEnvelope) → List String → List (String × TxEnvelope)
  | txs, [] => txs
  | txs, f :: rest =>
      match fs.txFile f with
      | none => txs
      | some lines => loadTxFilesFSAux decode fs known (loadLines decode known txs lines) rest

/-- File-system variant of `LoadTransactionCSVFiles`. -/
def LoadTransactionCSVFilesFS (decode : String → Option DecodedTx) (fs : FS)
    (files knownFiles : List String) : List (String × TxEnvelope) :=
  loadTxFilesFSAux decode fs (LoadTxHashesFromMetadataCSVFilesFS fs knownFiles) [] files

/-! ### The merger (`cmd/merge/transactions.go`) -/

/-- Generic insertion step for sorting by an integer key. -/
def insertByKey {α : Type} (key : α → Int) (a : α) : List α → List α
  | [] => [a]
  | b :: l => if key a ≤ key b then a :: b :: l else b :: insertByKey key a l

/-- Model of `sort.Slice(s, func(i, j) { return key(s[i]) < key(s[j]) })`:
an insertion sort realizing the comparator.  `sort.Slice` guarantees only a
permutation that is non-decreasing in the key; the relative order of
equal-key elements is unspecified (the algorithm is not stable and Go map
iteration order is randomized upstream). -/
def sortByKey {α : Type} (key : α → Int) : List α → List α
  | [] => []
  | a :: l => insertByKey key a (sortByKey key l)

/-- The merger's sort of the entries slice: by `Timestamp` only. -/
def sortByTs : List TxSummaryEntry → List TxSummaryEntry :=
  sortByKey (fun t => t.Timestamp)

/-- The `timestamp_ms,hash,raw_tx` line of the optional transactions CSV. -/
def txCSVLine (tx : TxSummaryEntry) : String :=
  toString tx.Timestamp ++ "," ++ tx.Hash ++ "," ++ tx.RawTxHex

/-- The three output artifacts written by the merger's write loop. -/
structure MergeOutput where
  parquetRows : List TxSummaryEntry
  metaCSVRows : List (List String)
  txsCSVLines : List String
  cntWritten : Nat
deriving Repr, DecidableEq

/-- The write loop of `mergeTransactions` (lines 156-189): entries with
`InclusionDelayMs ≤ -12000` are skipped; every other entry is written to the
parquet file and the metadata CSV, and to the transactions CSV when enabled. -/
def writeLoop (writeTxCSV : Bool) : List TxSummaryEntry → MergeOutput
  | [] => ⟨[], [], [], 0⟩
  | tx :: rest =>
      if tx.InclusionDelayMs ≤ -12000 then writeLoop writeTxCSV rest
      else
        let out := writeLoop writeTxCSV rest
        ⟨tx :: out.parquetRows, tx.ToCSVRow :: out.metaCSVRows,
          if writeTxCSV then txCSVLine tx :: out.txsCSVLines else out.txsCSVLines,
          out.cntWritten + 1⟩

/-- `filepath.Join` for the simple two-component joins the merger performs. -/
def pathJoin (d f : String) : String := d ++ "/" ++ f

/-- Merger configuration: output directory, file-name stem (`fn-prefix` flag,
named `fnPfx` here), and the `write-tx-csv` flag. -/
structure MergeConfig where
  outDir : String
  fnPfx : String
  writeTxCSV : Bool

/-- The three output paths (parquet, metadata CSV, transactions CSV) computed
at the top of `mergeTransactions`. -/
def outPaths (cfg : MergeConfig) : String × String × String :=
  if cfg.fnPfx = "" then
    (pathJoin cfg.outDir "transactions.parquet",
      pathJoin cfg.outDir "metadata.csv",
      pathJoin cfg.outDir "transactions.csv")
  else
    (pathJoin cfg.outDir (cfg.fnPfx ++ ".parquet"),
      pathJoin cfg.outDir (cfg.fnPfx ++ ".csv"),
      pathJoin cfg.outDir (cfg.fnPfx ++ "_transactions.csv"))

/-- The fatal-abort causes of a merge run. -/
inductive MergeAbort where
  | noInput
  | outputExists
  | missingFile
deriving Repr, DecidableEq

/-- Result of a merge run: fatal abort (nothing written) or completed output. -/
inductive MergeResult where
  | fatal : MergeAbort → MergeResult
  | done : MergeOutput → MergeResult
deriving Repr, DecidableEq

/-- Rows written to the parquet file (none on a fatal abort). -/
def MergeResult.parquetRows : MergeResult → List TxSummaryEntry
  | .fatal _ => []
  | .done o => o.parquetRows

/-- Rows written to the metadata CSV (none on a fatal abort). -/
def MergeResult.metaCSVRows : MergeResult → List (List String)
  | .fatal _ => []
  | .done o => o.metaCSVRows

/-- Lines written to the optional transactions CSV (none on a fatal abort). -/
def MergeResult.txsCSVLines : MergeResult → List String
  | .fatal _ => []
  | .done o => o.txsCSVLines

/-- Whether the run completed. -/
def MergeResult.isDone : MergeResult → Bool
  | .fatal _ => false
  | .done _ => true

/-- The up-front fatal checks of `mergeTransactions`, in source order:
no input arguments; then `MustNotExist` on the parquet, metadata-CSV and
transactions-CSV paths (modelled from the spec: `common.MustNotExist`,
repository code outside the provided sources, aborts when the path exists);
then `MustBeFile` on every input file and every sourcelog file (modelled from
the spec: `common.MustBeFile`, repository code outside the provided sources,
aborts when the file is missing).  The blacklist files are not checked. -/
def mergeAbortReason (fs : FS) (cfg : MergeConfig)
    (sourcelogFiles inputFiles : List String) : Option MergeAbort :=
  if inputFiles.isEmpty then some .noInput
  else if fs.pathExists (outPaths cfg).1 then some .outputExists
  else if fs.pathExists (outPaths cfg).2.1 then some .outputExists
  else if fs.pathExists (outPaths cfg).2.2 then some .outputExists
  else if inputFiles.any (fun fn => (fs.txFile fn).isNone) then some .missingFile
  else if sourcelogFiles.any (fun fn => (fs.txFile fn).isNone) then some .missingFile
  else none

/-- Modelled from the spec: `LoadSourcelogFiles` (repository code outside the
provided sources) parses `hash,timestamp_ms,source_tag` lines (§6) into the
mapping hash → source → earliest timestamp (§3 "Sourcelog"); unreadable files
and malformed lines are skipped. -/
def sourcelogLineStep (m : List (String × List (String × Int))) (l : String) :
    List (String × List (String × Int)) :=
  match splitComma (trimNewlines l) with
  | [h, tsStr, src] =>
      match atoi tsStr with
      | none => m
      | some ts =>
          let hash := toLowerStr h
          let inner := (alookup m hash).getD []
          match alookup inner src with
          | some old => if ts < old then mapInsert m hash (mapInsert inner src ts) else m
          | none => mapInsert m hash (mapInsert inner src ts)
  | _ => m

/-- Modelled from the spec: the sourcelog accumulated over all files. -/
def LoadSourcelogFiles (fs : FS) (files : List String) :
    List (String × List (String × Int)) :=
  files.foldl
    (fun m f =>
      match fs.txFile f with
      | none => m
      | some lines => lines.foldl sourcelogLineStep m)
    []

/-- The sources-update step of `mergeTransactions` (lines 85-103): each
entry's `Sources` becomes the source tags of its sourcelog row sorted by
ascending timestamp.  The envelope's raw RLP becomes the entry's `RawTx`
(the merger's struct version stores the raw transaction in the entry). -/
def updateSources (slog : List (String × List (String × Int)))
    (p : String × TxEnvelope) : String × TxSummaryEntry :=
  let pairs := (alookup slog p.1).getD []
  let sorted := sortByKey (fun q : String × Int => q.2) pairs
  (p.1, { p.2.Summary with RawTx := p.2.Rlp, Sources := sorted.map Prod.fst })

/-- The entries slice of `mergeTransactions` after loading, sources update,
inclusion annotation (`updateInclusionStatus` performs one per-entry RPC
update, modelled as the function `annotate`), and the sort by timestamp. -/
def mergeSortedSlice (decode : String → Option DecodedTx)
    (annotate : TxSummaryEntry → TxSummaryEntry) (fs : FS)
    (knownTxsFiles sourcelogFiles inputFiles : List String) :
    List TxSummaryEntry :=
  let txs := LoadTransactionCSVFilesFS decode fs inputFiles knownTxsFiles
  let slog := LoadSourcelogFiles fs sourcelogFiles
  sortByTs (txs.map (fun p => annotate (updateSources slog p).2))

/-- `mergeTransactions` from `cmd/merge/transactions.go`: fatal checks, load,
enrich, sort, write. -/
def mergeTransactions (decode : String → Option DecodedTx)
    (annotate : TxSummaryEntry → TxSummaryEntry) (fs : FS) (cfg : MergeConfig)
    (knownTxsFiles sourcelogFiles inputFiles : List String) : MergeResult :=
  match mergeAbortReason fs cfg sourcelogFiles inputFiles with
  | some a => .fatal a
  | none =>
      .done (writeLoop cfg.writeTxCSV
        (mergeSortedSlice decode annotate fs knownTxsFiles sourcelogFiles inputFiles))

/-- Bool form of "all fatal checks pass". -/
def mergeChecksPass (fs : FS) (cfg : MergeConfig)
    (sourcelogFiles inputFiles : List String) : Bool :=
  !inputFiles.isEmpty &&
    !fs.pathExists (outPaths cfg).1 &&
    !fs.pathExists (outPaths cfg).2.1 &&
    !fs.pathExists (outPaths cfg).2.2 &&
    !(inputFiles.any (fun fn => (fs.txFile fn).isNone)) &&
    !(sourcelogFiles.any (fun fn => (fs.txFile fn).isNone))

/-! ### The analyzer (`latencyComp`)

The histograms are modelled as the lists of values passed to
`(*hdrhistogram.Histogram).RecordValue`, in call order. -/

/-- Result of one latency comparison. -/
structure LatencyResult where
  srcH : List Int
  refH : List Int
  totalSeenByBoth : Nat
deriving Repr, DecidableEq

/-- One transaction of step 1 of `latencyComp`: skip single-source entries,
entries not included on-chain, and entries not seen by both `src` and `ref`;
otherwise enter the lower-cased hash with a fresh empty timestamp map. -/
def latencyStep1Row (src ref : String)
    (m : List (String × List (String × Int))) (p : String × TxSummaryEntry) :
    List (String × List (String × Int)) :=
  if p.2.Sources.length = 1 then m
  else if p.2.IncludedAtBlockHeight = 0 then m
  else if ¬(p.2.HasSource src = true) ∨ ¬(p.2.HasSource ref = true) then m
  else mapInsert m (toLowerStr p.1) []

/-- Step 1 of `latencyComp`: the hashes of transactions seen by more than one
source, included on-chain, and seen by both `src` and `ref`, each mapped to a
fresh empty timestamp map. -/
def latencyStep1 (txs : List (String × TxSummaryEntry)) (src ref : String) :
    List (String × List (String × Int)) :=
  txs.foldl (latencyStep1Row src ref) []

/-- The conditional assignment `if txHashes[h][k] == 0 || ts < txHashes[h][k]
then txHashes[h][k] = ts` (a missing Go map key reads as 0). -/
def innerVal (inner : List (String × Int)) (key : String) (ts : Int) :
    List (String × Int) :=
  let old := (alookup inner key).getD 0
  if old = 0 ∨ ts < old then mapInsert inner key ts else inner

/-- Step 2 of `latencyComp`, one sourcelog row: if the row's hash survived
step 1 and the row has both `src` and `ref`, record their first timestamps. -/
def latencyStep2Row (src ref : String)
    (m : List (String × List (String × Int)))
    (row : String × List (String × Int)) :
    List (String × List (String × Int)) :=
  let h := toLowerStr row.1
  match alookup m h with
  | none => m
  | some inner =>
      match alookup row.2 src, alookup row.2 ref with
      | some tsS, some tsR =>
          mapInsert m h (innerVal (innerVal inner src tsS) ref tsR)
      | _, _ => m

/-- One bucket step of step 3 of `latencyComp`: a positive difference is
recorded into the source-first histogram, a negative one (negated) into the
reference-first histogram, zero is ignored. -/
def latencyStep3Row (src ref : String) (acc : List Int × List Int)
    (p : String × List (String × Int)) : List Int × List Int :=
  let srcTS := (alookup p.2 src).getD 0
  let localTS := (alookup p.2 ref).getD 0
  let diff := localTS - srcTS
  if diff = 0 then acc
  else if 0 < diff then (acc.1 ++ [diff], acc.2)
  else (acc.1, acc.2 ++ [-diff])

/-- Step 3 of `latencyComp`: bucket the timestamp differences. -/
def latencyStep3 (src ref : String)
    (m : List (String × List (String × Int))) : List Int × List Int :=
  m.foldl (latencyStep3Row src ref) ([], [])

/-- `latencyComp` from the analyzer: histograms of pairwise arrival-time
differences over transactions included on-chain and seen by both sources,
plus the size of that shared population. -/
def latencyComp (txs : List (String × TxSummaryEntry))
    (slog : List (String × List (String × Int))) (src ref : String) :
    LatencyResult :=
  let txHashes := latencyStep1 txs src ref
  let m := slog.foldl (latencyStep2Row src ref) txHashes
  let hist := latencyStep3 src ref m
  ⟨hist.1, hist.2, m.length⟩

/-- The lower-cased hashes of the transactions a `(src, ref)` comparison
restricts to, in map order: included on-chain and seen by both sources. -/
def latencyQual (txs : List (String × TxSummaryEntry)) (src ref : String) :
    List String :=
  (txs.filter
      (fun p =>
        p.2.IncludedAtBlockHeight ≠ 0 && p.2.HasSource src && p.2.HasSource ref)).map
    (fun p => toLowerStr p.1)

/-- The sourcelog row whose lower-cased hash is `h`. -/
def slogFindLower (slog : List (String × List (String × Int))) (h : String) :
    Option (List (String × Int)) :=
  (slog.find? (fun row => toLowerStr row.1 = h)).map Prod.snd

/-- The arrival-time difference `sourcelog[hash][ref] - sourcelog[hash][src]`
of the claim, read off the sourcelog (0 when either side is absent). -/
def deltaOf (slog : List (String × List (String × Int))) (src ref h : String) :
    Int :=
  match slogFindLower slog h with
  | none => 0
  | some inner =>
      match alookup inner src, alookup inner ref with
      | some tsS, some tsR => tsR - tsS
      | _, _ => 0

/-- The effect of one sourcelog row on hash `h`'s timestamp map: the body of
`latencyStep2Row` projected to a single key (used to analyse step 2). -/
def latencyRowApply (src ref h : String) (inn : List (String × Int))
    (row : String × List (String × Int)) : List (String × Int) :=
  if toLowerStr row.1 = h then
    match alookup row.2 src, alookup row.2 ref with
    | some tsS, some tsR => innerVal (innerVal inn src tsS) ref tsR
    | _, _ => inn
  else inn

/-- The per-key trace of step 2 over the whole sourcelog. -/
def rowsApply (src ref h : String)
    (slog : List (String × List (String × Int)))
    (inn : List (String × Int)) : List (String × Int) :=
  slog.foldl (latencyRowApply src ref h) inn

/-- The timestamp map hash `h` ends up with after step 2, read off the
sourcelog: both first timestamps when `h`'s row has both `src` and `ref`,
empty otherwise. -/
def innerOf (slog : List (String × List (String × Int))) (src ref h : String) :
    List (String × Int) :=
  match slogFindLower slog h with
  | none => []
  | some inner =>
      match alookup inner src, alookup inner ref with
      | some tsS, some tsR => [(src, tsS), (ref, tsR)]
      | _, _ => []

/-! ### Association-list lemmas -/

theorem alookup_cons {β : Type} (p : String × β) (rest : List (String × β))
    (k : String) :
    alookup (p :: rest) k = if p.1 = k then some p.2 else alookup rest k := rfl

theorem alookup_append_single {β : Type} (l : List (String × β)) (k h : String)
    (v : β) :
    alookup (l ++ [(k, v)]) h =
      match alookup l h with
      | some w => some w
      | none => if k = h then some v else none := by
  induction l with
  | nil => simp [alookup]
  | cons p rest ih =>
      by_cases hp : p.1 = h
      · simp [alookup_cons, hp]
      · simp [alookup_cons, hp, ih]

theorem alookup_eq_none_iff {β : Type} (l : List (String × β)) (h : String) :
    alookup l h = none ↔ h ∉ l.map Prod.fst := by
  induction l with
  | nil => simp [alookup]
  | cons p rest ih =>
      by_cases hp : p.1 = h
      · subst hp
        simp [alookup_cons]
      · simp only [alookup_cons, hp, if_false, List.map_cons, List.mem_cons, ih]
        constructor
        · intro hn hor
          cases hor with
          | inl he => exact hp he.symm
          | inr hm => exact hn hm
        · intro hn hm
          exact hn (Or.inr hm)

/-! ### Loader lemmas: the per-key state machine -/

theorem keys_updateTsMin (txs : List (String × TxEnvelope)) (h : String)
    (ts : Int) : (updateTsMin txs h ts).map Prod.fst = txs.map Prod.fst := by
  unfold updateTsMin
  rw [List.map_map]
  apply List.map_congr_left
  intro p _
  by_cases hp : p.1 = h <;> simp [hp]

theorem alookup_map_update {β : Type} (f : β → β) (h : String) :
    ∀ (l : List (String × β)) (k : String),
      alookup (l.map (fun p => if p.1 = h then (p.1, f p.2) else p)) k =
        if h = k then (alookup l k).map f else alookup l k := by
  intro l
  induction l with
  | nil => intro k; by_cases hk : h = k <;> simp [alookup, hk]
  | cons p rest ih =>
      intro k
      rw [List.map_cons]
      by_cases hph : p.1 = h
      · by_cases hhk : h = k
        · subst hhk
          simp [alookup_cons, hph]
        · have hpk : ¬ p.1 = k := fun he => hhk (hph.symm.trans he)
          simp [alookup_cons, hph, hpk, hhk, ih]
      · by_cases hpk : p.1 = k
        · have hhk : ¬ h = k := fun he => hph (hpk.trans he.symm)
          simp [alookup_cons, hph, hpk, hhk, Ne.symm hhk]
        · simp [alookup_cons, hph, hpk, ih]

theorem updateTsMin_eq_map_update (txs : List (String × TxEnvelope))
    (h : String) (ts : Int) :
    updateTsMin txs h ts =
      txs.map
        (fun p =>
          if p.1 = h then
            (p.1,
              if ts < p.2.Summary.Timestamp then
                ⟨p.2.Rlp, { p.2.Summary with Timestamp := ts }⟩
              else p.2)
          else p) := rfl

theorem alookup_updateTsMin (txs : List (String × TxEnvelope)) (h ts k) :
    alookup (updateTsMin txs h ts) k =
      if h = k then
        (alookup txs k).map
          (fun e =>
            if ts < e.Summary.Timestamp then ⟨e.Rlp, { e.Summary with Timestamp := ts }⟩
            else e)
      else alookup txs k := by
  rw [updateTsMin_eq_map_update]
  exact alookup_map_update
    (fun e =>
      if ts < e.Summary.Timestamp then ⟨e.Rlp, { e.Summary with Timestamp := ts }⟩
      else e)
    h txs k

theorem alookup_applyRecord (decode : String → Option DecodedTx)
    (txs : List (String × TxEnvelope)) (h2 : String) (ts : Int) (rlp k : String) :
    alookup (applyRecord decode txs h2 ts rlp) k =
      if h2 = k then stepKey decode k (alookup txs k) (ts, rlp)
      else alookup txs k := by
  unfold applyRecord
  cases hl : alookup txs h2 with
  | some e =>
      rw [alookup_updateTsMin]
      by_cases hk : h2 = k
      · subst hk
        rw [hl]
        simp [stepKey]
      · simp [hk]
  | none =>
      cases hp : parseTx decode ts h2 rlp with
      | none =>
          by_cases hk : h2 = k
          · subst hk
            simp [hl, stepKey, hp]
          · simp [hk]
      | some s =>
          rw [alookup_append_single]
          by_cases hk : h2 = k
          · subst hk
            rw [hl]
            simp [stepKey, hp]
          · simp [hk]
            cases alookup txs k <;> rfl

/-- `processLine` factored through the line-format analysis. -/
theorem processLine_eq (decode : String → Option DecodedTx)
    (known : List String) (txs : List (String × TxEnvelope)) (l : String) :
    processLine decode known txs l =
      match lineRecord known l with
      | none => txs
      | some (h, ts, rlp) => applyRecord decode txs h ts rlp := by
  unfold processLine lineRecord
  by_cases h66 : utf8Len l < 66
  · simp [h66]
  · simp only [h66, if_false]
    by_cases hlen : (splitComma (trimNewlines l)).length ≠ 3
    · simp [hlen]
    · obtain ⟨a, b, c, hitems⟩ := List.length_eq_three.mp (not_not.mp hlen)
      rw [hitems]
      have h3 : ¬([a, b, c].length ≠ 3) := by simp
      rw [if_neg h3, if_neg h3]
      cases atoi ([a, b, c].getD 0 "") with
      | none => rfl
      | some ts =>
          by_cases hk : toLowerStr b ∈ known <;> simp [hk]

theorem occsOfLines_cons (known : List String) (h : String) (l : String)
    (rest : List String) :
    occsOfLines known h (l :: rest) =
      (match lineRecord known l with
        | some (h2, ts, rlp) => if h2 = h then some (ts, rlp) else none
        | none => none).toList ++ occsOfLines known h rest := by
  unfold occsOfLines
  rw [List.filterMap_cons]
  cases hlr : lineRecord known l with
  | none => simp
  | some trip =>
      obtain ⟨h2, ts, rlp⟩ := trip
      by_cases he : h2 = h <;> simp [he]

theorem alookup_loadLines (decode : String → Option DecodedTx)
    (known : List String) (h : String) :
    ∀ (lines : List String) (txs : List (String × TxEnvelope)),
      alookup (loadLines decode known txs lines) h =
        (occsOfLines known h lines).foldl (stepKey decode h) (alookup txs h) := by
  intro lines
  induction lines with
  | nil => intro txs; simp [loadLines, occsOfLines]
  | cons l rest ih =>
      intro txs
      have hstep : loadLines decode known txs (l :: rest) =
          loadLines decode known (processLine decode known txs l) rest := rfl
      rw [hstep, ih, occsOfLines_cons, processLine_eq]
      cases hlr : lineRecord known l with
      | none => simp
      | some trip =>
          obtain ⟨h2, ts, rlp⟩ := trip
          by_cases he : h2 = h
          · subst he
            simp [alookup_applyRecord]
          · simp [he, alookup_applyRecord]

theorem parseTx_some_timestamp (decode : String → Option DecodedTx)
    (ts : Int) (h rlp : String) (s : TxSummaryEntry)
    (hp : parseTx decode ts h rlp = some s) : s.Timestamp = ts := by
  unfold parseTx at hp
  cases hd : decode rlp with
  | none =>
      rw [hd] at hp
      exact absurd hp (by simp)
  | some tx =>
      rw [hd] at hp
      simp only [Option.some.injEq] at hp
      rw [← hp]

theorem foldl_stepKey_some (decode : String → Option DecodedTx) (h : String)
    (e : TxEnvelope) :
    ∀ os : List (Int × String),
      os.foldl (stepKey decode h) (some e) =
        some ⟨e.Rlp,
          { e.Summary with
            Timestamp := os.foldl (fun m o => min m o.1) e.Summary.Timestamp }⟩ := by
  intro os
  induction os generalizing e with
  | nil => simp
  | cons o rest ih =>
      have hstep : stepKey decode h (some e) o =
          some
            (if o.1 < e.Summary.Timestamp then
              ⟨e.Rlp, { e.Summary with Timestamp := o.1 }⟩
            else e) := rfl
      rw [List.foldl_cons, hstep]
      by_cases hlt : o.1 < e.Summary.Timestamp
      · simp only [hlt, if_true]
        rw [ih]
        have hmin : min e.Summary.Timestamp o.1 = o.1 := min_eq_right hlt.le
        simp [hmin]
      · simp only [hlt, if_false]
        rw [ih]
        have hmin : min e.Summary.Timestamp o.1 = e.Summary.Timestamp :=
          min_eq_left (not_lt.mp hlt)
        simp [hmin]

theorem foldl_stepKey_none (decode : String → Option DecodedTx) (h : String) :
    ∀ os : List (Int × String),
      os.foldl (stepKey decode h) none = storedEntryRef decode h os := by
  intro os
  induction os with
  | nil => rfl
  | cons o rest ih =>
      obtain ⟨ts, rlp⟩ := o
      have hstep : stepKey decode h (none : Option TxEnvelope) (ts, rlp) =
          match parseTx decode ts h rlp with
          | none => none
          | some s => some ⟨rlp, s⟩ := rfl
      rw [List.foldl_cons, hstep]
      cases hp : parseTx decode ts h rlp with
      | none => simpa [storedEntryRef, hp] using ih
      | some s =>
          rw [foldl_stepKey_some]
          have hts : s.Timestamp = ts := parseTx_some_timestamp decode ts h rlp s hp
          simp [storedEntryRef, hp, hts]

theorem loadLines_append (decode : String → Option DecodedTx)
    (known : List String) (txs : List (String × TxEnvelope))
    (l1 l2 : List String) :
    loadLines decode known txs (l1 ++ l2) =
      loadLines decode known (loadLines decode known txs l1) l2 := by
  unfold loadLines
  exact List.foldl_append (processLine decode known) txs l1 l2

theorem foldl_loadLines_eq_flatten (decode : String → Option DecodedTx)
    (known : List String) :
    ∀ (files : List (List String)) (txs : List (String × TxEnvelope)),
      files.foldl (fun txs lines => loadLines decode known txs lines) txs =
        loadLines decode known txs files.flatten := by
  intro files
  induction files with
  | nil => intro txs; rfl
  | cons f rest ih =>
      intro txs
      rw [List.foldl_cons, List.flatten_cons, loadLines_append, ih]

theorem LoadTransactionCSVFiles_eq_flatten (decode : String → Option DecodedTx)
    (files : List (List String)) (knownFiles : List (List (List String))) :
    LoadTransactionCSVFiles decode files knownFiles =
      loadLines decode (LoadTxHashesFromMetadataCSVFiles knownFiles) []
        files.flatten := by
  unfold LoadTransactionCSVFiles
  exact foldl_loadLines_eq_flatten decode _ files []

theorem keys_processLine_nodup (decode : String → Option DecodedTx)
    (known : List String) (txs : List (String × TxEnvelope)) (l : String)
    (hnd : (txs.map Prod.fst).Nodup) :
    ((processLine decode known txs l).map Prod.fst).Nodup := by
  rw [processLine_eq]
  cases hlr : lineRecord known l with
  | none => exact hnd
  | some trip =>
      obtain ⟨h, ts, rlp⟩ := trip
      show ((applyRecord decode txs h ts rlp).map Prod.fst).Nodup
      unfold applyRecord
      cases hl : alookup txs h with
      | some e =>
          show ((updateTsMin txs h ts).map Prod.fst).Nodup
          rw [keys_updateTsMin]
          exact hnd
      | none =>
          cases hp : parseTx decode ts h rlp with
          | none => exact hnd
          | some s =>
              show ((txs ++ [(h, TxEnvelope.mk rlp s)]).map Prod.fst).Nodup
              have hmem : h ∉ txs.map Prod.fst := (alookup_eq_none_iff txs h).mp hl
              rw [List.map_append]
              rw [List.nodup_append]
              refine ⟨hnd, ?_, ?_⟩
              · simp
              · intro a ha hb
                rw [List.map_singleton, List.mem_singleton] at hb
                have hah : a = h := hb
                exact hmem (hah ▸ ha)

theorem keys_loadLines_nodup (decode : String → Option DecodedTx)
    (known : List String) :
    ∀ (lines : List String) (txs : List (String × TxEnvelope)),
      (txs.map Prod.fst).Nodup →
        ((loadLines decode known txs lines).map Prod.fst).Nodup := by
  intro lines
  induction lines with
  | nil => intro txs hnd; exact hnd
  | cons l rest ih =>
      intro txs hnd
      exact ih (processLine decode known txs l)
        (keys_processLine_nodup decode known txs l hnd)

/-- Claim C2 (amended): the loader's map has exactly one entry per unique
lower-cased hash, and the entry stored under a hash is the first occurrence
whose decode succeeds — raw RLP and decoded fields taken from that occurrence
— with only `Timestamp` lowered to the minimum over that occurrence's and all
later occurrences' timestamps.  Timestamps of valid lines seen before the
first successful decode are dropped along with those lines. -/
theorem loader_one_entry_min_timestamp (decode : String → Option DecodedTx)
    (files : List (List String)) (knownFiles : List (List (List String)))
    (h : String) :
    ((LoadTransactionCSVFiles decode files knownFiles).map Prod.fst).Nodup ∧
      alookup (LoadTransactionCSVFiles decode files knownFiles) h =
        storedEntryRef decode h
          (occsOfLines (LoadTxHashesFromMetadataCSVFiles knownFiles) h
            files.flatten) := by
  rw [LoadTransactionCSVFiles_eq_flatten]
  constructor
  · exact keys_loadLines_nodup decode _ files.flatten [] (by simp)
  · rw [alookup_loadLines]
    exact foldl_stepKey_none decode h _

/-! Concrete inputs for the claim C2 counterexample: two well-formed lines
carry the same hash; the first line's RLP does not decode (timestamp 5), the
second decodes (timestamp 10). -/

/-- Raw-transaction string that does not decode. -/
def cexRlpBad : String := String.mk (List.replicate 60 'b')

/-- Raw-transaction string that decodes. -/
def cexRlpGood : String := String.mk (List.replicate 60 'g')

/-- First CSV line: timestamp 5, undecodable RLP (68 bytes). -/
def cexLine1 : String := "5,0xAB," ++ cexRlpBad ++ "\n"

/-- Second CSV line: same hash, timestamp 10, decodable RLP. -/
def cexLine2 : String := "10,0xab," ++ cexRlpGood ++ "\n"

/-- The decoded transaction behind `cexRlpGood`. -/
def cexDecodedTx : DecodedTx :=
  ⟨1, "0xhash", "0xsender", true, none, 0, 0, 21000, 3, 1, 2, []⟩

/-- Decoder for the counterexample: only `cexRlpGood` decodes. -/
def cexDecode : String → Option DecodedTx :=
  fun s => if s = cexRlpGood then some cexDecodedTx else none

/-- Claim C2 counterexample: the hash occurs on two valid lines with
timestamps 5 and 10, yet the stored entry's `Timestamp` is 10 — not the
minimum 5 over all occurrences — because the line with timestamp 5 failed to
decode and was dropped before the hash was first stored. -/
theorem loader_min_timestamp_counterexample :
    occsOfLines [] "0xab" [cexLine1, cexLine2] =
        [(5, cexRlpBad), (10, cexRlpGood)] ∧
      (alookup (LoadTransactionCSVFiles cexDecode [[cexLine1, cexLine2]] [])
            "0xab").map (fun e => e.Summary.Timestamp) = some 10 ∧
      min (5 : Int) 10 = 5 ∧ (10 : Int) ≠ 5 := by
  refine ⟨by decide, by decide, by decide, by decide⟩

/-! ### Claim C3: the blacklist filter -/

theorem mem_metadataRecordStep1 (x : String) (acc : List String)
    (r : List String) (hx : x ∈ acc) : x ∈ metadataRecordStep1 acc r := by
  cases r with
  | nil => exact hx
  | cons r0 t =>
      cases t with
      | nil => exact hx
      | cons r1 t2 => exact List.mem_append_left _ hx

theorem mem_metadataRecordsStep_mono (x : String) :
    ∀ (records : List (List String)) (acc : List String),
      x ∈ acc → x ∈ metadataRecordsStep acc records := by
  intro records
  induction records with
  | nil => intro acc hx; exact hx
  | cons r rest ih =>
      intro acc hx
      have hstep : metadataRecordsStep acc (r :: rest) =
          metadataRecordsStep (metadataRecordStep1 acc r) rest := rfl
      rw [hstep]
      exact ih _ (mem_metadataRecordStep1 x acc r hx)

theorem mem_metadataRecordsStep (records : List (List String))
    (rec : List String) (s : String) (hrec : rec ∈ records)
    (hs : rec.get? 1 = some s) :
    ∀ acc : List String, toLowerStr s ∈ metadataRecordsStep acc records := by
  induction records with
  | nil => exact absurd hrec (List.not_mem_nil rec)
  | cons r rest ih =>
      intro acc
      have hstep : metadataRecordsStep acc (r :: rest) =
          metadataRecordsStep (metadataRecordStep1 acc r) rest := rfl
      rw [hstep]
      rcases List.mem_cons.mp hrec with hr | hr
      · subst hr
        cases rec with
        | nil => exact absurd hs (by simp)
        | cons r0 t =>
            cases t with
            | nil => exact absurd hs (by simp)
            | cons r1 t2 =>
                have hr1 : r1 = s := by simpa using hs
                subst hr1
                exact mem_metadataRecordsStep_mono _ rest _
                  (List.mem_append_right _ (List.mem_singleton.mpr rfl))
      · exact ih hr _

/-- The lower-cased column-1 hash of any well-formed record of any metadata
file is in the loaded blacklist, from an arbitrary starting accumulator. -/
theorem mem_foldl_metadataRecordsStep
    (knownFiles : List (List (List String))) (fileRecs : List (List String))
    (rec : List String) (s : String) (hfile : fileRecs ∈ knownFiles)
    (hrec : rec ∈ fileRecs) (hs : rec.get? 1 = some s) :
    ∀ acc : List String,
      toLowerStr s ∈ knownFiles.foldl metadataRecordsStep acc := by
  induction knownFiles with
  | nil => exact absurd hfile (List.not_mem_nil fileRecs)
  | cons f rest ih =>
      intro acc
      rw [List.foldl_cons]
      rcases List.mem_cons.mp hfile with hf | hf
      · subst hf
        have hmono : ∀ (files : List (List (List String))) (a : List String),
            toLowerStr s ∈ a → toLowerStr s ∈ files.foldl metadataRecordsStep a := by
          intro files
          induction files with
          | nil => intro a hx; exact hx
          | cons g grest ihg =>
              intro a hx
              rw [List.foldl_cons]
              exact ihg _ (mem_metadataRecordsStep_mono _ g a hx)
        exact hmono rest _ (mem_metadataRecordsStep fileRecs rec s hrec hs acc)
      · exact ih hf _

theorem mem_LoadTxHashesFromMetadataCSVFiles
    (knownFiles : List (List (List String))) (fileRecs : List (List String))
    (rec : List String) (s : String) (hfile : fileRecs ∈ knownFiles)
    (hrec : rec ∈ fileRecs) (hs : rec.get? 1 = some s) :
    toLowerStr s ∈ LoadTxHashesFromMetadataCSVFiles knownFiles :=
  mem_foldl_metadataRecordsStep knownFiles fileRecs rec s hfile hrec hs []

theorem lineRecord_not_known (known : List String) (l : String)
    (h2 : String) (ts : Int) (rlp : String)
    (hlr : lineRecord known l = some (h2, ts, rlp)) : h2 ∉ known := by
  unfold lineRecord at hlr
  by_cases h66 : utf8Len l < 66
  · simp [h66] at hlr
  · simp only [h66, if_false] at hlr
    by_cases hlen : (splitComma (trimNewlines l)).length ≠ 3
    · simp [hlen] at hlr
    · obtain ⟨a, b, c, hitems⟩ := List.length_eq_three.mp (not_not.mp hlen)
      rw [hitems] at hlr
      have h3 : ¬([a, b, c].length ≠ 3) := by simp
      rw [if_neg h3] at hlr
      cases hA : atoi ([a, b, c].getD 0 "") with
      | none => rw [hA] at hlr; exact absurd hlr (by simp)
      | some ts0 =>
          rw [hA] at hlr
          by_cases hk : toLowerStr b ∈ known
          · simp [hk] at hlr
          · simp [hk] at hlr
            obtain ⟨hh, _, _⟩ := hlr
            rw [← hh]
            exact hk

theorem occsOfLines_of_known (known : List String) (k : String)
    (hkmem : k ∈ known) (lines : List String) :
    occsOfLines known k lines = [] := by
  unfold occsOfLines
  rw [List.filterMap_eq_nil_iff]
  intro l hl
  cases hlr : lineRecord known l with
  | none => rfl
  | some trip =>
      obtain ⟨h2, ts, rlp⟩ := trip
      by_cases he : h2 = k
      · subst he
        exact absurd hkmem (lineRecord_not_known known l h2 ts rlp hlr)
      · simp [he]

/-- Claim C3 (confirmed): a hash that appears in column 1 of any record of
any supplied already-known metadata CSV (compared case-insensitively via
lower-casing) has no entry in the map returned by the loader, no matter how
many input lines carry it. -/
theorem blacklisted_hash_never_loaded (decode : String → Option DecodedTx)
    (files : List (List String)) (knownFiles : List (List (List String)))
    (fileRecs : List (List String)) (rec : List String) (s : String)
    (hfile : fileRecs ∈ knownFiles) (hrec : rec ∈ fileRecs)
    (hs : rec.get? 1 = some s) :
    alookup (LoadTransactionCSVFiles decode files knownFiles) (toLowerStr s) =
      none := by
  have hk : toLowerStr s ∈ LoadTxHashesFromMetadataCSVFiles knownFiles :=
    mem_LoadTxHashesFromMetadataCSVFiles knownFiles fileRecs rec s hfile hrec hs
  rw [LoadTransactionCSVFiles_eq_flatten, alookup_loadLines,
    occsOfLines_of_known _ _ hk]
  rfl

/-- Claim C3 witness: a concrete blacklisted hash (upper-case in the metadata
record, lower-case on the CSV line) is absent from the loaded map. -/
theorem blacklisted_hash_never_loaded_witness :
    (["meta", "0xAB"] : List String).get? 1 = some "0xAB" ∧
      alookup
          (LoadTransactionCSVFiles cexDecode [[cexLine2]]
            [[["meta", "0xAB"]]])
          (toLowerStr "0xAB") = none :=
  ⟨by decide,
    blacklisted_hash_never_loaded cexDecode [[cexLine2]] [[["meta", "0xAB"]]]
      [["meta", "0xAB"]] ["meta", "0xAB"] "0xAB" (by decide) (by decide)
      (by decide)⟩

/-! ### Claim C7: the 66-byte line-length gate -/

/-- A 65-byte line, counting the trailing newline returned by `ReadString`:
6 header bytes, 58 raw-transaction bytes, 1 newline. -/
def line65 : String := "7,0xC," ++ String.mk (List.replicate 58 'r') ++ "\n"

/-- The same line with one more raw-transaction byte: 66 bytes. -/
def line66 : String := "7,0xC," ++ String.mk (List.replicate 59 'r') ++ "\n"

/-- A decoder that decodes every raw string, so that the only reason either
line could be dropped is the loader's own filtering. -/
def dec7 : String → Option DecodedTx := fun _ => some cexDecodedTx

/-- Claim C7 (confirmed): every line shorter than 66 bytes is skipped without
being parsed — the map is returned unchanged for any decoder — and a line of
at least 66 bytes proceeds past the length gate; concretely, the 65-byte
`line65` is skipped while the 66-byte `line66` (same shape, one byte longer)
is parsed and stored. -/
theorem line_length_gate :
    (∀ (decode : String → Option DecodedTx) (known : List String)
        (txs : List (String × TxEnvelope)) (l : String),
        utf8Len l < 66 → processLine decode known txs l = txs) ∧
      utf8Len line65 = 65 ∧
      processLine dec7 [] [] line65 = [] ∧
      utf8Len line66 = 66 ∧
      (processLine dec7 [] [] line66).map Prod.fst = ["0xc"] := by
  refine ⟨?_, by decide, by decide, by decide, by decide⟩
  intro decode known txs l h66
  unfold processLine
  rw [if_pos h66]

/-- Claim C7 witness: the skip branch applied at the concrete 65-byte line. -/
theorem line_length_gate_witness :
    utf8Len line65 < 66 ∧ processLine dec7 [] [] line65 = [] :=
  ⟨by decide, line_length_gate.1 dec7 [] [] line65 (by decide)⟩

/-! ### Claim C1: `parseTx` under signature-recovery failure -/

/-- A decoded transaction whose signature recovery failed: go-ethereum's
`types.Sender` returned `common.Address{}` (the zero address) with the error. -/
def cexNoSigTx : DecodedTx :=
  ⟨1, "0xhash", zeroAddressHex, false, none, 0, 0, 21000, 3, 1, 2, []⟩

/-- Decoder for the C1 counterexample. -/
def cexNoSigDecode : String → Option DecodedTx := fun _ => some cexNoSigTx

/-- Claim C1 (amended): when the raw transaction decodes but signature
recovery fails, `parseTx` still returns an entry and every field other than
`From` is populated by the normal derivation rules; `From` is the hex of the
zero address (the address value `types.Sender` returns alongside the ignored
error), not the empty string. -/
theorem parseTx_recovery_failure (decode : String → Option DecodedTx)
    (ts : Int) (h raw : String) (tx : DecodedTx)
    (hdec : decode raw = some tx) (hfail : tx.senderOk = false)
    (hzero : tx.senderHex = zeroAddressHex) :
    parseTx decode ts h raw =
      some
        { Timestamp := ts
          Hash := tx.hashHex
          ChainID := toString tx.chainId
          From := zeroAddressHex
          To := tx.toHex.getD ""
          Value := toString tx.value
          Nonce := toString tx.nonce
          Gas := toString tx.gas
          GasPrice := toString tx.gasPrice
          GasTipCap := toString tx.gasTipCap
          GasFeeCap := toString tx.gasFeeCap
          DataSize := (tx.data.length : Int)
          Data4Bytes :=
            if 4 ≤ tx.data.length then hexEncode (tx.data.take 4) else "" } := by
  unfold parseTx
  rw [hdec]
  dsimp only
  rw [hzero]
  cases tx.toHex <;> rfl

/-- Claim C1 witness: the amended rule evaluated at a concrete
recovery-failed transaction. -/
theorem parseTx_recovery_failure_witness :
    (parseTx cexNoSigDecode 5 "0xh" "raw").map TxSummaryEntry.From =
      some zeroAddressHex := by
  rw [parseTx_recovery_failure cexNoSigDecode 5 "0xh" "raw" cexNoSigTx rfl rfl rfl]
  rfl

/-- Claim C1 counterexample: with signature recovery failing, the emitted
entry's `From` is the zero-address hex string, which is not the empty string
the claim requires. -/
theorem parseTx_from_empty_counterexample :
    cexNoSigTx.senderOk = false ∧
      (parseTx cexNoSigDecode 1 "0xh" "raw").map TxSummaryEntry.From =
        some zeroAddressHex ∧
      zeroAddressHex ≠ "" := by
  refine ⟨by decide, by decide, by decide⟩

/-! ### Sorting lemmas for the merger -/

theorem insertByKey_perm {α : Type} (key : α → Int) (a : α) :
    ∀ l : List α, List.Perm (insertByKey key a l) (a :: l) := by
  intro l
  induction l with
  | nil => exact List.Perm.refl _
  | cons b t ih =>
      unfold insertByKey
      by_cases hab : key a ≤ key b
      · rw [if_pos hab]
      · rw [if_neg hab]
        exact (ih.cons b).trans (List.Perm.swap a b t)

theorem insertByKey_pairwise {α : Type} (key : α → Int) (a : α)
    (l : List α) (hl : l.Pairwise (fun x y => key x ≤ key y)) :
    (insertByKey key a l).Pairwise (fun x y => key x ≤ key y) := by
  induction l with
  | nil => simp [insertByKey]
  | cons b t ih =>
      rcases List.pairwise_cons.mp hl with ⟨hb, ht⟩
      unfold insertByKey
      by_cases hab : key a ≤ key b
      · rw [if_pos hab]
        refine List.pairwise_cons.mpr ⟨?_, hl⟩
        intro x hx
        rcases List.mem_cons.mp hx with hx | hx
        · rw [hx]; exact hab
        · exact le_trans hab (hb x hx)
      · rw [if_neg hab]
        refine List.pairwise_cons.mpr ⟨?_, ih ht⟩
        intro x hx
        have hx2 : x ∈ a :: t := ((insertByKey_perm key a t).mem_iff).mp hx
        rcases List.mem_cons.mp hx2 with hx2 | hx2
        · rw [hx2]; exact (not_le.mp hab).le
        · exact hb x hx2

theorem sortByKey_perm {α : Type} (key : α → Int) :
    ∀ l : List α, List.Perm (sortByKey key l) l := by
  intro l
  induction l with
  | nil => exact List.Perm.refl _
  | cons a t ih =>
      exact (insertByKey_perm key a (sortByKey key t)).trans (ih.cons a)

theorem sortByKey_pairwise {α : Type} (key : α → Int) :
    ∀ l : List α, (sortByKey key l).Pairwise (fun x y => key x ≤ key y) := by
  intro l
  induction l with
  | nil => simp [sortByKey]
  | cons a t ih => exact insertByKey_pairwise key a (sortByKey key t) ih

/-- Claim C4 (amended): the merger's sort orders the entries by `timestamp_ms`
ascending only — the result is a permutation of the entries, non-decreasing in
`Timestamp`.  No secondary hash key is applied; the relative order of entries
with equal timestamps is inherited from (randomized) map iteration order. -/
theorem sort_by_timestamp_only (l : List TxSummaryEntry) :
    List.Perm (sortByTs l) l ∧
      (sortByTs l).Pairwise (fun a b => a.Timestamp ≤ b.Timestamp) :=
  ⟨sortByKey_perm _ l, sortByKey_pairwise _ l⟩

/-! ### The write loop as a filter -/

theorem writeLoop_eq (writeTxCSV : Bool) :
    ∀ l : List TxSummaryEntry,
      writeLoop writeTxCSV l =
        { parquetRows := l.filter (fun tx => -12000 < tx.InclusionDelayMs)
          metaCSVRows :=
            (l.filter (fun tx => -12000 < tx.InclusionDelayMs)).map
              TxSummaryEntry.ToCSVRow
          txsCSVLines :=
            if writeTxCSV then
              (l.filter (fun tx => -12000 < tx.InclusionDelayMs)).map txCSVLine
            else []
          cntWritten :=
            (l.filter (fun tx => -12000 < tx.InclusionDelayMs)).length } := by
  intro l
  induction l with
  | nil => cases writeTxCSV <;> rfl
  | cons tx rest ih =>
      unfold writeLoop
      by_cases hd : tx.InclusionDelayMs ≤ -12000
      · rw [if_pos hd, ih]
        have hfilter : (tx :: rest).filter (fun tx => -12000 < tx.InclusionDelayMs) =
            rest.filter (fun tx => -12000 < tx.InclusionDelayMs) := by
          rw [List.filter_cons]
          simp [not_lt.mpr hd]
        rw [hfilter]
      · rw [if_neg hd, ih]
        have hfilter : (tx :: rest).filter (fun tx => -12000 < tx.InclusionDelayMs) =
            tx :: rest.filter (fun tx => -12000 < tx.InclusionDelayMs) := by
          rw [List.filter_cons]
          simp [not_le.mp hd]
        rw [hfilter]
        cases writeTxCSV <;> simp

/-- Claim C5 (confirmed): the rows written to the parquet output are
non-decreasing in `timestamp_ms`: each consecutively written pair is ordered. -/
theorem parquet_timestamps_nondecreasing (decode : String → Option DecodedTx)
    (annotate : TxSummaryEntry → TxSummaryEntry) (fs : FS) (cfg : MergeConfig)
    (kf sf inf : List String) :
    ((mergeTransactions decode annotate fs cfg kf sf inf).parquetRows).Chain'
      (fun a b => a.Timestamp ≤ b.Timestamp) := by
  unfold mergeTransactions
  cases mergeAbortReason fs cfg sf inf with
  | some a => exact List.chain'_nil
  | none =>
      show ((writeLoop cfg.writeTxCSV
          (mergeSortedSlice decode annotate fs kf sf inf)).parquetRows).Chain' _
      rw [writeLoop_eq]
      have hsorted : (mergeSortedSlice decode annotate fs kf sf inf).Pairwise
          (fun a b => a.Timestamp ≤ b.Timestamp) := by
        unfold mergeSortedSlice sortByTs
        exact sortByKey_pairwise _ _
      exact (hsorted.sublist (List.filter_sublist _)).chain'

/-- Claim C6 (confirmed): when none of the fatal checks trips, each of the
three outputs consists of exactly the entries of the sorted slice whose
`InclusionDelayMs` exceeds -12000, in slice order: an entry is written iff
`InclusionDelayMs > -12000`. -/
theorem write_iff_inclusion_delay (decode : String → Option DecodedTx)
    (annotate : TxSummaryEntry → TxSummaryEntry) (fs : FS) (cfg : MergeConfig)
    (kf sf inf : List String)
    (hok : mergeAbortReason fs cfg sf inf = none) :
    (mergeTransactions decode annotate fs cfg kf sf inf).parquetRows =
        (mergeSortedSlice decode annotate fs kf sf inf).filter
          (fun tx => -12000 < tx.InclusionDelayMs) ∧
      (mergeTransactions decode annotate fs cfg kf sf inf).metaCSVRows =
        ((mergeSortedSlice decode annotate fs kf sf inf).filter
            (fun tx => -12000 < tx.InclusionDelayMs)).map
          TxSummaryEntry.ToCSVRow ∧
      (mergeTransactions decode annotate fs cfg kf sf inf).txsCSVLines =
        if cfg.writeTxCSV then
          ((mergeSortedSlice decode annotate fs kf sf inf).filter
              (fun tx => -12000 < tx.InclusionDelayMs)).map txCSVLine
        else [] := by
  unfold mergeTransactions
  rw [hok]
  rw [writeLoop_eq]
  exact ⟨rfl, rfl, rfl⟩

/-! ### Concrete merge fixtures -/

/-- Raw RLP string of the first fixture transaction. -/
def mrgRlp1 : String := String.mk (List.replicate 60 'p')

/-- Raw RLP string of the second fixture transaction. -/
def mrgRlp2 : String := String.mk (List.replicate 60 'q')

/-- CSV line for hash `0xb2` at timestamp 1000. -/
def mrgLineH2 : String := "1000,0xB2," ++ mrgRlp2 ++ "\n"

/-- CSV line for hash `0xb1` at timestamp 1000. -/
def mrgLineH1 : String := "1000,0xB1," ++ mrgRlp1 ++ "\n"

/-- Decoded form of `mrgRlp1`: canonical hash `0xaa`. -/
def mrgTx1 : DecodedTx := ⟨1, "0xaa", "0xs1", true, none, 0, 0, 0, 0, 0, 0, []⟩

/-- Decoded form of `mrgRlp2`: canonical hash `0xbb`. -/
def mrgTx2 : DecodedTx := ⟨1, "0xbb", "0xs2", true, none, 0, 0, 0, 0, 0, 0, []⟩

/-- Fixture decoder. -/
def mrgDecode : String → Option DecodedTx :=
  fun s =>
    if s = mrgRlp1 then some mrgTx1
    else if s = mrgRlp2 then some mrgTx2
    else none

/-- Fixture file system: one readable input CSV whose `0xb2` line precedes its
`0xb1` line; no outputs exist; no metadata file is readable. -/
def mrgFS : FS :=
  ⟨fun _ => false,
    fun f => if f = "in.csv" then some [mrgLineH2, mrgLineH1] else none,
    fun _ => none⟩

/-- Fixture configuration: default file names, transactions CSV disabled. -/
def mrgCfg : MergeConfig := ⟨"out", "", false⟩

/-- Claim C4 counterexample: two entries with equal `timestamp_ms = 1000` and
hashes `0xbb` and `0xaa` (ascending hash order would be `0xaa` first) are
written in map order `0xbb` then `0xaa`: the sort applies no hash tie-break,
so the claimed output order H1-then-H2 does not hold. -/
theorem sort_tiebreak_counterexample :
    ((mergeTransactions mrgDecode id mrgFS mrgCfg [] [] ["in.csv"]).parquetRows).map
        (fun t => t.Hash) = ["0xbb", "0xaa"] ∧
      ((mergeTransactions mrgDecode id mrgFS mrgCfg [] [] ["in.csv"]).parquetRows).map
          (fun t => t.Timestamp) = [1000, 1000] ∧
      (["0xbb", "0xaa"] : List String) ≠ ["0xaa", "0xbb"] := by
  refine ⟨by decide, by decide, by decide⟩

/-- Annotation used by the C6 witness: marks the `0xbb` transaction as
included 12 s before it was seen. -/
def annotC6 : TxSummaryEntry → TxSummaryEntry :=
  fun tx =>
    if tx.Hash = "0xbb" then { tx with InclusionDelayMs := -12000 } else tx

/-- Claim C6 witness: the write-filter equalities evaluated on a concrete run
in which the `0xbb` entry has `InclusionDelayMs = -12000` and is dropped. -/
theorem write_iff_inclusion_delay_witness :
    mergeAbortReason mrgFS mrgCfg [] ["in.csv"] = none ∧
      ((mergeTransactions mrgDecode annotC6 mrgFS mrgCfg [] [] ["in.csv"]).parquetRows =
          (mergeSortedSlice mrgDecode annotC6 mrgFS [] [] ["in.csv"]).filter
            (fun tx => -12000 < tx.InclusionDelayMs) ∧
        (mergeTransactions mrgDecode annotC6 mrgFS mrgCfg [] [] ["in.csv"]).metaCSVRows =
          ((mergeSortedSlice mrgDecode annotC6 mrgFS [] [] ["in.csv"]).filter
              (fun tx => -12000 < tx.InclusionDelayMs)).map
            TxSummaryEntry.ToCSVRow ∧
        (mergeTransactions mrgDecode annotC6 mrgFS mrgCfg [] [] ["in.csv"]).txsCSVLines =
          if mrgCfg.writeTxCSV then
            ((mergeSortedSlice mrgDecode annotC6 mrgFS [] [] ["in.csv"]).filter
                (fun tx => -12000 < tx.InclusionDelayMs)).map txCSVLine
          else []) ∧
      ((mergeTransactions mrgDecode annotC6 mrgFS mrgCfg [] [] ["in.csv"]).parquetRows).map
          (fun t => t.Hash) = ["0xaa"] :=
  ⟨by decide,
    write_iff_inclusion_delay mrgDecode annotC6 mrgFS mrgCfg [] [] ["in.csv"]
      (by decide),
    by decide⟩

/-! ### Claims C9 and C10: the fatal up-front checks -/

theorem mergeChecksPass_iff (fs : FS) (cfg : MergeConfig)
    (sf inf : List String) :
    mergeChecksPass fs cfg sf inf = true ↔
      mergeAbortReason fs cfg sf inf = none := by
  unfold mergeChecksPass mergeAbortReason
  cases h0 : inf.isEmpty <;>
    cases h1 : fs.pathExists (outPaths cfg).1 <;>
      cases h2 : fs.pathExists (outPaths cfg).2.1 <;>
        cases h3 : fs.pathExists (outPaths cfg).2.2 <;>
          cases h4 : inf.any (fun fn => (fs.txFile fn).isNone) <;>
            cases h5 : sf.any (fun fn => (fs.txFile fn).isNone) <;>
              simp [h0, h1, h2, h3, h4, h5]

/-- Claim C9 (amended): the merge aborts with a missing-file fatal error
exactly when some input-transactions CSV or sourcelog CSV is missing (after
the earlier no-input and output-exists checks pass); the blacklist metadata
files are never checked, and whenever the checks pass the run completes and
produces output regardless of whether any blacklist file is readable. -/
theorem merge_fatal_missing_input (decode : String → Option DecodedTx)
    (annotate : TxSummaryEntry → TxSummaryEntry) (fs : FS) (cfg : MergeConfig)
    (kf sf inf : List String) :
    (mergeTransactions decode annotate fs cfg kf sf inf =
          .fatal .missingFile ↔
        (inf.isEmpty = false ∧
          fs.pathExists (outPaths cfg).1 = false ∧
          fs.pathExists (outPaths cfg).2.1 = false ∧
          fs.pathExists (outPaths cfg).2.2 = false ∧
          ((inf ++ sf).any (fun fn => (fs.txFile fn).isNone)) = true)) ∧
      (mergeChecksPass fs cfg sf inf = true →
        (mergeTransactions decode annotate fs cfg kf sf inf).isDone = true) := by
  constructor
  · unfold mergeTransactions mergeAbortReason
    cases h0 : inf.isEmpty <;>
      cases h1 : fs.pathExists (outPaths cfg).1 <;>
        cases h2 : fs.pathExists (outPaths cfg).2.1 <;>
          cases h3 : fs.pathExists (outPaths cfg).2.2 <;>
            cases h4 : inf.any (fun fn => (fs.txFile fn).isNone) <;>
              cases h5 : sf.any (fun fn => (fs.txFile fn).isNone) <;>
                simp [h0, h1, h2, h3, h4, h5, List.any_append]
  · intro hpass
    have hnone : mergeAbortReason fs cfg sf inf = none :=
      (mergeChecksPass_iff fs cfg sf inf).mp hpass
    unfold mergeTransactions
    rw [hnone]
    rfl

/-- A file system on which only the (disabled) transactions-CSV output path
already exists. -/
def fsC10 : FS :=
  ⟨fun p => p == "out/transactions.csv", fun _ => none, fun _ => none⟩

/-- Claim C10 (confirmed): with input arguments present, the merge aborts with
an output-exists fatal error exactly when one of the three output paths —
parquet, metadata CSV, or transactions CSV — already exists; the condition
does not depend on the `write-tx-csv` flag, and the abort happens before any
file is read or written. -/
theorem output_files_must_not_exist (decode : String → Option DecodedTx)
    (annotate : TxSummaryEntry → TxSummaryEntry) (fs : FS) (cfg : MergeConfig)
    (kf sf inf : List String) (hne : inf.isEmpty = false) :
    mergeTransactions decode annotate fs cfg kf sf inf =
        .fatal .outputExists ↔
      (fs.pathExists (outPaths cfg).1 || fs.pathExists (outPaths cfg).2.1 ||
          fs.pathExists (outPaths cfg).2.2) = true := by
  unfold mergeTransactions mergeAbortReason
  rw [hne]
  cases h1 : fs.pathExists (outPaths cfg).1 <;>
    cases h2 : fs.pathExists (outPaths cfg).2.1 <;>
      cases h3 : fs.pathExists (outPaths cfg).2.2 <;>
        cases h4 : inf.any (fun fn => (fs.txFile fn).isNone) <;>
          cases h5 : sf.any (fun fn => (fs.txFile fn).isNone) <;>
            simp [h1, h2, h3, h4, h5]

/-- Claim C10 witness: with `write-tx-csv` disabled and only the
transactions-CSV output path existing, the run still aborts. -/
theorem output_files_must_not_exist_witness :
    mrgCfg.writeTxCSV = false ∧
      mergeTransactions mrgDecode id fsC10 mrgCfg [] [] ["in.csv"] =
        .fatal .outputExists :=
  ⟨by decide,
    (output_files_must_not_exist mrgDecode id fsC10 mrgCfg [] [] ["in.csv"]
        (by decide)).mpr (by decide)⟩

/-- Claim C9 witness: a missing sourcelog CSV yields the missing-file fatal
abort, and a run whose checks pass completes. -/
theorem merge_fatal_missing_input_witness :
    mergeTransactions mrgDecode id mrgFS mrgCfg [] ["missing.csv"] ["in.csv"] =
        .fatal .missingFile ∧
      mergeChecksPass mrgFS mrgCfg [] ["in.csv"] = true ∧
      (mergeTransactions mrgDecode id mrgFS mrgCfg [] [] ["in.csv"]).isDone =
        true :=
  ⟨(merge_fatal_missing_input mrgDecode id mrgFS mrgCfg [] ["missing.csv"]
        ["in.csv"]).1.mpr
      ⟨by decide, by decide, by decide, by decide, by decide⟩,
    by decide,
    (merge_fatal_missing_input mrgDecode id mrgFS mrgCfg [] [] ["in.csv"]).2
      (by decide)⟩

/-- Claim C9 counterexample: the blacklist metadata file `bl.csv` is
unreadable (missing), yet the merge run does not abort — it completes and
writes both loaded transactions to the parquet output. -/
theorem missing_blacklist_not_fatal_counterexample :
    mrgFS.metaFile "bl.csv" = none ∧
      (mergeTransactions mrgDecode id mrgFS mrgCfg ["bl.csv"] [] ["in.csv"]).isDone =
        true ∧
      ((mergeTransactions mrgDecode id mrgFS mrgCfg ["bl.csv"] [] ["in.csv"]).parquetRows).length =
        2 := by
  refine ⟨by decide, by decide, by decide⟩

/-! ### Claim C8: characterization of `latencyComp` -/

theorem mapInsert_of_not_mem {β : Type} (m : List (String × β)) (k : String)
    (v : β) (hk : alookup m k = none) : mapInsert m k v = m ++ [(k, v)] := by
  unfold mapInsert
  rw [hk]
  rfl

theorem alookup_map_replace {β : Type} (k : String) (v : β) :
    ∀ (m : List (String × β)) (h : String),
      alookup (m.map (fun p => if p.1 = k then (k, v) else p)) h =
        if k = h then (alookup m h).map (fun _ => v) else alookup m h := by
  intro m
  induction m with
  | nil => intro h; by_cases hk : k = h <;> simp [alookup, hk]
  | cons p rest ih =>
      intro h
      rw [List.map_cons]
      by_cases hpk : p.1 = k
      · by_cases hkh : k = h
        · subst hkh
          simp [alookup_cons, hpk]
        · have hph : ¬ p.1 = h := fun he => hkh (hpk.symm.trans he)
          simp [alookup_cons, hpk, hph, hkh, ih]
      · by_cases hph : p.1 = h
        · have hkh : ¬ k = h := fun he => hpk (hph.trans he.symm)
          have hhk2 : ¬ h = k := fun he => hkh he.symm
          simp [alookup_cons, hpk, hph, hkh, hhk2]
        · simp [alookup_cons, hpk, hph, ih]

theorem alookup_mapInsert {β : Type} (m : List (String × β)) (k : String)
    (v : β) (h : String) :
    alookup (mapInsert m k v) h = if k = h then some v else alookup m h := by
  unfold mapInsert
  cases hm : alookup m k with
  | some w =>
      simp only [hm, Option.isSome_some, if_true]
      rw [alookup_map_replace]
      by_cases hkh : k = h
      · subst hkh
        rw [if_pos rfl, if_pos rfl, hm]
        rfl
      · rw [if_neg hkh, if_neg hkh]
  | none =>
      simp only [hm, Option.isSome_none, Bool.false_eq_true, if_false]
      rw [alookup_append_single]
      by_cases hkh : k = h
      · subst hkh
        rw [hm]
      · cases alookup m h <;> simp [hkh]

theorem mapInsert_keys_of_mem {β : Type} (m : List (String × β)) (k : String)
    (v : β) (hk : (alookup m k).isSome = true) :
    (mapInsert m k v).map Prod.fst = m.map Prod.fst := by
  unfold mapInsert
  rw [if_pos hk, List.map_map]
  apply List.map_congr_left
  intro p _
  by_cases hp : p.1 = k <;> simp [hp]

/-- With `src ≠ ref`, an entry seen by both cannot have a single-element
`Sources` list, so the step-1 skip conditions collapse to the negation of the
claim's restriction predicate. -/
theorem hasSource_mem (t : TxSummaryEntry) (s : String)
    (h : t.HasSource s = true) : s ∈ t.Sources := by
  unfold TxSummaryEntry.HasSource at h
  simpa using h

theorem latencyStep1Row_eq (src ref : String) (hsr : src ≠ ref)
    (m : List (String × List (String × Int))) (p : String × TxSummaryEntry) :
    latencyStep1Row src ref m p =
      if p.2.IncludedAtBlockHeight ≠ 0 && p.2.HasSource src && p.2.HasSource ref
      then mapInsert m (toLowerStr p.1) []
      else m := by
  unfold latencyStep1Row
  by_cases hlen : p.2.Sources.length = 1
  · rw [if_pos hlen]
    rcases List.length_eq_one.mp hlen with ⟨x, hx⟩
    by_cases hincl : p.2.IncludedAtBlockHeight = 0
    · simp [hincl]
    · by_cases hsrc : p.2.HasSource src = true
      · have hxs : src = x := by
          have hmem := hasSource_mem p.2 src hsrc
          rw [hx] at hmem
          exact List.mem_singleton.mp hmem
        by_cases href : p.2.HasSource ref = true
        · have hxr : ref = x := by
            have hmem := hasSource_mem p.2 ref href
            rw [hx] at hmem
            exact List.mem_singleton.mp hmem
          exact absurd (hxs.trans hxr.symm) hsr
        · have : p.2.HasSource ref = false := by
            cases he : p.2.HasSource ref
            · rfl
            · exact absurd he href
          simp [this]
      · have : p.2.HasSource src = false := by
          cases he : p.2.HasSource src
          · rfl
          · exact absurd he hsrc
        simp [this]
  · rw [if_neg hlen]
    by_cases hincl : p.2.IncludedAtBlockHeight = 0
    · simp [hincl]
    · by_cases hsrc : p.2.HasSource src = true
      · by_cases href : p.2.HasSource ref = true
        · simp [hincl, hsrc, href]
        · have hrf : p.2.HasSource ref = false := by
            cases he : p.2.HasSource ref
            · rfl
            · exact absurd he href
          simp [hincl, hsrc, hrf]
      · have hsf : p.2.HasSource src = false := by
          cases he : p.2.HasSource src
          · rfl
          · exact absurd he hsrc
        simp [hincl, hsf]

theorem latencyStep1_go (src ref : String) (hsr : src ≠ ref) :
    ∀ (txs : List (String × TxSummaryEntry))
      (m : List (String × List (String × Int))),
      (∀ p ∈ txs, alookup m (toLowerStr p.1) = none) →
      (txs.map (fun p => toLowerStr p.1)).Nodup →
      txs.foldl (latencyStep1Row src ref) m =
        m ++ (latencyQual txs src ref).map (fun h => (h, [])) := by
  intro txs
  induction txs with
  | nil => intro m _ _; simp [latencyQual]
  | cons p rest ih =>
      intro m hfresh hnd
      rw [List.foldl_cons, latencyStep1Row_eq src ref hsr]
      have hndrest : (rest.map (fun p => toLowerStr p.1)).Nodup :=
        (List.nodup_cons.mp hnd).2
      have hheadfresh : toLowerStr p.1 ∉ rest.map (fun q => toLowerStr q.1) :=
        (List.nodup_cons.mp hnd).1
      by_cases hq : (p.2.IncludedAtBlockHeight ≠ 0 && p.2.HasSource src &&
          p.2.HasSource ref) = true
      · rw [if_pos hq]
        have hfp : alookup m (toLowerStr p.1) = none :=
          hfresh p (List.mem_cons_self p rest)
        rw [mapInsert_of_not_mem m _ _ hfp]
        have hfresh2 : ∀ q ∈ rest,
            alookup (m ++ [(toLowerStr p.1, [])]) (toLowerStr q.1) = none := by
          intro q hqmem
          rw [alookup_append_single, hfresh q (List.mem_cons_of_mem p hqmem)]
          have hne : toLowerStr p.1 ≠ toLowerStr q.1 := by
            intro he
            exact hheadfresh (he ▸ List.mem_map_of_mem (fun r => toLowerStr r.1) hqmem)
          simp [hne]
        rw [ih (m ++ [(toLowerStr p.1, [])]) hfresh2 hndrest]
        have hqual : latencyQual (p :: rest) src ref =
            toLowerStr p.1 :: latencyQual rest src ref := by
          unfold latencyQual
          rw [List.filter_cons, if_pos hq, List.map_cons]
        rw [hqual, List.map_cons, List.append_assoc]
        rfl
      · rw [if_neg hq]
        have hfresh2 : ∀ q ∈ rest, alookup m (toLowerStr q.1) = none :=
          fun q hqmem => hfresh q (List.mem_cons_of_mem p hqmem)
        rw [ih m hfresh2 hndrest]
        have hqual : latencyQual (p :: rest) src ref =
            latencyQual rest src ref := by
          unfold latencyQual
          rw [List.filter_cons]
          have hq2 : (p.2.IncludedAtBlockHeight ≠ 0 && p.2.HasSource src &&
              p.2.HasSource ref) = false := by
            cases he : (p.2.IncludedAtBlockHeight ≠ 0 && p.2.HasSource src &&
                p.2.HasSource ref)
            · rfl
            · exact absurd he hq
          rw [hq2]
          simp
        rw [hqual]

theorem latencyStep1_eq (src ref : String) (hsr : src ≠ ref)
    (txs : List (String × TxSummaryEntry))
    (htx : (txs.map (fun p => toLowerStr p.1)).Nodup) :
    latencyStep1 txs src ref =
      (latencyQual txs src ref).map (fun h => (h, [])) := by
  unfold latencyStep1
  rw [latencyStep1_go src ref hsr txs [] (fun p _ => rfl) htx]
  rfl

theorem step2Row_pointwise (src ref : String)
    (m : List (String × List (String × Int)))
    (row : String × List (String × Int)) (h : String) :
    alookup (latencyStep2Row src ref m row) h =
      (alookup m h).map (fun inn => latencyRowApply src ref h inn row) := by
  unfold latencyStep2Row latencyRowApply
  dsimp only
  by_cases hlh : toLowerStr row.1 = h
  · rw [hlh]
    cases hm : alookup m h with
    | none => simp [hm]
    | some inner =>
        cases hsrc : alookup row.2 src with
        | none => simp [hm, hsrc]
        | some tsS =>
            cases href2 : alookup row.2 ref with
            | none => simp [hm, hsrc, href2]
            | some tsR =>
                rw [alookup_mapInsert]
                simp [hm, hsrc, href2]
  · cases hm : alookup m (toLowerStr row.1) with
    | none => simp [hlh]
    | some inner =>
        cases hsrc : alookup row.2 src with
        | none => simp [hlh]
        | some tsS =>
            cases href2 : alookup row.2 ref with
            | none => simp [hlh]
            | some tsR =>
                rw [alookup_mapInsert, if_neg hlh]
                simp [hlh]

theorem step2_fold_pointwise (src ref : String) :
    ∀ (slog : List (String × List (String × Int)))
      (m : List (String × List (String × Int))) (h : String),
      alookup (slog.foldl (latencyStep2Row src ref) m) h =
        (alookup m h).map (fun inn => rowsApply src ref h slog inn) := by
  intro slog
  induction slog with
  | nil =>
      intro m h
      rw [List.foldl_nil]
      cases alookup m h <;> rfl
  | cons row rest ih =>
      intro m h
      rw [List.foldl_cons, ih, step2Row_pointwise]
      cases alookup m h <;> rfl

theorem step2Row_keys (src ref : String)
    (m : List (String × List (String × Int)))
    (row : String × List (String × Int)) :
    (latencyStep2Row src ref m row).map Prod.fst = m.map Prod.fst := by
  unfold latencyStep2Row
  dsimp only
  cases hm : alookup m (toLowerStr row.1) with
  | none => rfl
  | some inner =>
      cases hsrc : alookup row.2 src with
      | none => rfl
      | some tsS =>
          cases href2 : alookup row.2 ref with
          | none => rfl
          | some tsR =>
              exact mapInsert_keys_of_mem m _ _ (by rw [hm]; rfl)

theorem step2_fold_keys (src ref : String) :
    ∀ (slog : List (String × List (String × Int)))
      (m : List (String × List (String × Int))),
      (slog.foldl (latencyStep2Row src ref) m).map Prod.fst =
        m.map Prod.fst := by
  intro slog
  induction slog with
  | nil => intro m; rfl
  | cons row rest ih =>
      intro m
      rw [List.foldl_cons, ih, step2Row_keys]

theorem rowsApply_no_match (src ref h : String) :
    ∀ (slog : List (String × List (String × Int)))
      (inn : List (String × Int)),
      (∀ row ∈ slog, toLowerStr row.1 ≠ h) →
      rowsApply src ref h slog inn = inn := by
  intro slog
  induction slog with
  | nil => intro inn _; rfl
  | cons row rest ih =>
      intro inn hno
      show rowsApply src ref h rest (latencyRowApply src ref h inn row) = inn
      have h1 : latencyRowApply src ref h inn row = inn := by
        unfold latencyRowApply
        rw [if_neg (hno row (List.mem_cons_self row rest))]
      rw [h1]
      exact ih inn (fun r hr => hno r (List.mem_cons_of_mem row hr))

theorem innerVal_nil (key : String) (ts : Int) :
    innerVal [] key ts = [(key, ts)] := by
  unfold innerVal
  simp [alookup, mapInsert]

theorem innerVal_other (src ref : String) (hsr : src ≠ ref) (tsS tsR : Int) :
    innerVal [(src, tsS)] ref tsR = [(src, tsS), (ref, tsR)] := by
  unfold innerVal
  have h1 : alookup [(src, tsS)] ref = none := by
    simp [alookup, hsr]
  rw [h1]
  simp [mapInsert, h1]

theorem slogFindLower_cons_pos (row : String × List (String × Int))
    (rest : List (String × List (String × Int))) (h : String)
    (hlh : toLowerStr row.1 = h) :
    slogFindLower (row :: rest) h = some row.2 := by
  unfold slogFindLower
  rw [List.find?_cons_of_pos]
  · rfl
  · simp [hlh]

theorem slogFindLower_cons_neg (row : String × List (String × Int))
    (rest : List (String × List (String × Int))) (h : String)
    (hlh : ¬ toLowerStr row.1 = h) :
    slogFindLower (row :: rest) h = slogFindLower rest h := by
  unfold slogFindLower
  rw [List.find?_cons_of_neg]
  simp [hlh]

theorem rowsApply_nil_eq_innerOf (src ref h : String) (hsr : src ≠ ref) :
    ∀ slog : List (String × List (String × Int)),
      (slog.map (fun row => toLowerStr row.1)).Nodup →
      rowsApply src ref h slog [] = innerOf slog src ref h := by
  intro slog
  induction slog with
  | nil => intro _; rfl
  | cons row rest ih =>
      intro hnd
      by_cases hlh : toLowerStr row.1 = h
      · have hrest_no : ∀ r ∈ rest, toLowerStr r.1 ≠ h := by
          intro r hr he
          have hmem : toLowerStr row.1 ∈ rest.map (fun q => toLowerStr q.1) := by
            rw [hlh, ← he]
            exact List.mem_map_of_mem (fun q => toLowerStr q.1) hr
          exact (List.nodup_cons.mp hnd).1 hmem
        show rowsApply src ref h rest (latencyRowApply src ref h [] row) =
          innerOf (row :: rest) src ref h
        rw [rowsApply_no_match src ref h rest _ hrest_no]
        unfold latencyRowApply innerOf
        rw [if_pos hlh, slogFindLower_cons_pos row rest h hlh]
        dsimp only
        cases hsrc : alookup row.2 src with
        | none => cases href2 : alookup row.2 ref <;> rfl
        | some tsS =>
            cases href2 : alookup row.2 ref with
            | none => rfl
            | some tsR =>
                dsimp only
                rw [innerVal_nil, innerVal_other src ref hsr]
      · show rowsApply src ref h rest (latencyRowApply src ref h [] row) =
          innerOf (row :: rest) src ref h
        have h1 : latencyRowApply src ref h [] row = [] := by
          unfold latencyRowApply
          rw [if_neg hlh]
        rw [h1]
        unfold innerOf
        rw [slogFindLower_cons_neg row rest h hlh]
        exact ih (List.nodup_cons.mp hnd).2

theorem alist_ext {β : Type} :
    ∀ (m1 m2 : List (String × β)),
      m1.map Prod.fst = m2.map Prod.fst →
      (m1.map Prod.fst).Nodup →
      (∀ h, alookup m1 h = alookup m2 h) → m1 = m2 := by
  intro m1
  induction m1 with
  | nil =>
      intro m2 hk _ _
      cases m2 with
      | nil => rfl
      | cons q r2 => exact absurd hk (by simp)
  | cons p r1 ih =>
      intro m2 hk hnd hpt
      cases m2 with
      | nil => exact absurd hk (by simp)
      | cons q r2 =>
          rw [List.map_cons, List.map_cons] at hk
          injection hk with hpq hrest
          have hval : p.2 = q.2 := by
            have hp1 := hpt p.1
            rw [alookup_cons, alookup_cons, if_pos rfl, if_pos hpq.symm] at hp1
            exact Option.some.inj hp1
          have hnotin : p.1 ∉ r1.map Prod.fst := (List.nodup_cons.mp hnd).1
          have hr : r1 = r2 := by
            apply ih r2 hrest (List.nodup_cons.mp hnd).2
            intro h
            by_cases hh : h = p.1
            · subst hh
              have h1 : alookup r1 p.1 = none :=
                (alookup_eq_none_iff r1 p.1).mpr hnotin
              have h2 : alookup r2 p.1 = none := by
                apply (alookup_eq_none_iff r2 p.1).mpr
                rw [← hrest]
                exact hnotin
              rw [h1, h2]
            · have hp1 := hpt h
              rw [alookup_cons, alookup_cons] at hp1
              have hph : ¬ p.1 = h := fun he => hh he.symm
              have hqh : ¬ q.1 = h := fun he => hh (hpq.trans he).symm
              rwa [if_neg hph, if_neg hqh] at hp1
          calc p :: r1 = ⟨p.1, p.2⟩ :: r1 := rfl
            _ = ⟨q.1, q.2⟩ :: r2 := by rw [hpq, hval, hr]

theorem innerOf_delta (slog : List (String × List (String × Int)))
    (src ref h : String) (hsr : src ≠ ref) :
    (alookup (innerOf slog src ref h) ref).getD 0 -
      (alookup (innerOf slog src ref h) src).getD 0 =
      deltaOf slog src ref h := by
  unfold innerOf deltaOf
  cases slogFindLower slog h with
  | none => rfl
  | some inner =>
      dsimp only
      cases hsrc : alookup inner src with
      | none => cases href2 : alookup inner ref <;> rfl
      | some tsS =>
          cases href2 : alookup inner ref with
          | none => rfl
          | some tsR =>
              dsimp only
              have h1 : alookup [(src, tsS), (ref, tsR)] ref = some tsR := by
                rw [alookup_cons, if_neg hsr, alookup_cons, if_pos rfl]
              have h2 : alookup [(src, tsS), (ref, tsR)] src = some tsS := by
                rw [alookup_cons, if_pos rfl]
              rw [h1, h2]
              rfl

theorem latencyStep3_go (src ref : String) (g : String → List (String × Int)) :
    ∀ (ks : List String) (acc : List Int × List Int),
      (ks.map (fun h => (h, g h))).foldl (latencyStep3Row src ref) acc =
        (acc.1 ++ ks.filterMap (fun h =>
            if 0 < (alookup (g h) ref).getD 0 - (alookup (g h) src).getD 0 then
              some ((alookup (g h) ref).getD 0 - (alookup (g h) src).getD 0)
            else none),
          acc.2 ++ ks.filterMap (fun h =>
            if (alookup (g h) ref).getD 0 - (alookup (g h) src).getD 0 < 0 then
              some (-((alookup (g h) ref).getD 0 - (alookup (g h) src).getD 0))
            else none)) := by
  intro ks
  induction ks with
  | nil => intro acc; simp
  | cons k rest ih =>
      intro acc
      rw [List.map_cons, List.foldl_cons, ih]
      unfold latencyStep3Row
      dsimp only
      by_cases h0 : (alookup (g k) ref).getD 0 - (alookup (g k) src).getD 0 = 0
      · rw [if_pos h0, List.filterMap_cons, List.filterMap_cons]
        have hn1 : ¬ 0 < (alookup (g k) ref).getD 0 - (alookup (g k) src).getD 0 := by
          rw [h0]; exact lt_irrefl 0
        have hn2 : ¬ (alookup (g k) ref).getD 0 - (alookup (g k) src).getD 0 < 0 := by
          rw [h0]; exact lt_irrefl 0
        rw [if_neg hn1, if_neg hn2]
      · rw [if_neg h0]
        by_cases hpos : 0 < (alookup (g k) ref).getD 0 - (alookup (g k) src).getD 0
        · rw [if_pos hpos, List.filterMap_cons, List.filterMap_cons,
            if_pos hpos]
          have hn2 : ¬ (alookup (g k) ref).getD 0 - (alookup (g k) src).getD 0 < 0 :=
            fun hlt => absurd (hlt.trans hpos) (lt_irrefl _)
          rw [if_neg hn2]
          simp
        · rw [if_neg hpos, List.filterMap_cons, List.filterMap_cons]
          have hneg : (alookup (g k) ref).getD 0 - (alookup (g k) src).getD 0 < 0 :=
            lt_of_le_of_ne (not_lt.mp hpos) h0
          rw [if_neg hpos, if_pos hneg]
          simp

/-- Claim C8 (confirmed): with distinct `src`/`ref` and well-formed (Go-map)
inputs, `latencyComp` restricts exactly to the transactions included on-chain
and seen by both sources; for each such hash with
Δ = `sourcelog[hash][ref] - sourcelog[hash][src]`, it records Δ into the
source-first histogram when Δ > 0, -Δ into the reference-first histogram when
Δ < 0, and nothing when Δ = 0; the shared-included count is the number of
restricted transactions. -/
theorem latencyComp_spec (txs : List (String × TxSummaryEntry))
    (slog : List (String × List (String × Int))) (src ref : String)
    (hsr : src ≠ ref)
    (htx : (txs.map (fun p => toLowerStr p.1)).Nodup)
    (hsl : (slog.map (fun row => toLowerStr row.1)).Nodup) :
    latencyComp txs slog src ref =
      { srcH := (latencyQual txs src ref).filterMap (fun h =>
          if 0 < deltaOf slog src ref h then some (deltaOf slog src ref h)
          else none)
        refH := (latencyQual txs src ref).filterMap (fun h =>
          if deltaOf slog src ref h < 0 then some (-(deltaOf slog src ref h))
          else none)
        totalSeenByBoth := (latencyQual txs src ref).length } := by
  unfold latencyComp
  dsimp only
  have hstep1 : latencyStep1 txs src ref =
      (latencyQual txs src ref).map (fun h => (h, [])) :=
    latencyStep1_eq src ref hsr txs htx
  have hqualnd : (latencyQual txs src ref).Nodup := by
    unfold latencyQual
    have hsub : List.Sublist
        ((txs.filter
            (fun p => p.2.IncludedAtBlockHeight ≠ 0 && p.2.HasSource src &&
              p.2.HasSource ref)).map (fun p => toLowerStr p.1))
        (txs.map (fun p => toLowerStr p.1)) :=
      (List.filter_sublist txs).map _
    exact htx.sublist hsub
  have hm2 : slog.foldl (latencyStep2Row src ref)
      (latencyStep1 txs src ref) =
      (latencyQual txs src ref).map
        (fun h => (h, innerOf slog src ref h)) := by
    apply alist_ext
    · rw [step2_fold_keys, hstep1, List.map_map, List.map_map]
      rfl
    · rw [step2_fold_keys, hstep1, List.map_map]
      rw [show ((Prod.fst : String × List (String × Int) → String) ∘
          (fun h => (h, ([] : List (String × Int))))) = fun h => h from rfl]
      simpa using hqualnd
    · intro h
      rw [step2_fold_pointwise, hstep1]
      have hgraph1 : ∀ (f : String → List (String × Int)) (ks : List String),
          alookup (ks.map (fun k => (k, f k))) h =
            if h ∈ ks then some (f h) else none := by
        intro f ks
        induction ks with
        | nil => simp [alookup]
        | cons k rest ihk =>
            rw [List.map_cons, alookup_cons]
            by_cases hkh : k = h
            · subst hkh
              simp
            · have hhk : ¬ h = k := fun he => hkh he.symm
              simp [hkh, hhk, ihk]
      rw [hgraph1 (fun _ => []) _, hgraph1 (fun k => innerOf slog src ref k) _]
      by_cases hmem : h ∈ latencyQual txs src ref
      · rw [if_pos hmem, if_pos hmem, Option.map_some',
          rowsApply_nil_eq_innerOf src ref h hsr slog hsl]
      · rw [if_neg hmem, if_neg hmem]
        rfl
  rw [hm2]
  unfold latencyStep3
  rw [latencyStep3_go src ref (fun h => innerOf slog src ref h)]
  have harm1 : (latencyQual txs src ref).filterMap (fun h =>
      if 0 < (alookup (innerOf slog src ref h) ref).getD 0 -
          (alookup (innerOf slog src ref h) src).getD 0 then
        some ((alookup (innerOf slog src ref h) ref).getD 0 -
          (alookup (innerOf slog src ref h) src).getD 0)
      else none) =
      (latencyQual txs src ref).filterMap (fun h =>
        if 0 < deltaOf slog src ref h then some (deltaOf slog src ref h)
        else none) := by
    apply List.filterMap_congr
    intro h _
    rw [innerOf_delta slog src ref h hsr]
  have harm2 : (latencyQual txs src ref).filterMap (fun h =>
      if (alookup (innerOf slog src ref h) ref).getD 0 -
          (alookup (innerOf slog src ref h) src).getD 0 < 0 then
        some (-((alookup (innerOf slog src ref h) ref).getD 0 -
          (alookup (innerOf slog src ref h) src).getD 0))
      else none) =
      (latencyQual txs src ref).filterMap (fun h =>
        if deltaOf slog src ref h < 0 then some (-(deltaOf slog src ref h))
        else none) := by
    apply List.filterMap_congr
    intro h _
    rw [innerOf_delta slog src ref h hsr]
  rw [List.nil_append, List.nil_append, harm1, harm2, List.length_map]

/-- Claim C8 witness: the spec's example — sourcelog `H1: {A:1000, B:1200}`,
`H1` included and seen by both — records Δ = +200 into A's histogram, nothing
into B's, with a shared-included count of 1. -/
theorem latencyComp_spec_witness :
    ("a" : String) ≠ "b" ∧
      (latencyComp
          [("0xh1",
            { Timestamp := 1000, Hash := "0xh1", ChainID := "1", From := "",
              To := "", Value := "0", Nonce := "0", Gas := "0", GasPrice := "0",
              GasTipCap := "0", GasFeeCap := "0", DataSize := 0,
              Data4Bytes := "", Sources := ["a", "b"],
              IncludedAtBlockHeight := 5 })]
          [("0xh1", [("a", 1000), ("b", 1200)])] "a" "b" =
        { srcH := (latencyQual
            [("0xh1",
              { Timestamp := 1000, Hash := "0xh1", ChainID := "1", From := "",
                To := "", Value := "0", Nonce := "0", Gas := "0",
                GasPrice := "0", GasTipCap := "0", GasFeeCap := "0",
                DataSize := 0, Data4Bytes := "", Sources := ["a", "b"],
                IncludedAtBlockHeight := 5 })] "a" "b").filterMap (fun h =>
              if 0 < deltaOf [("0xh1", [("a", 1000), ("b", 1200)])] "a" "b" h
              then some (deltaOf [("0xh1", [("a", 1000), ("b", 1200)])] "a" "b" h)
              else none)
          refH := (latencyQual
            [("0xh1",
              { Timestamp := 1000, Hash := "0xh1", ChainID := "1", From := "",
                To := "", Value := "0", Nonce := "0", Gas := "0",
                GasPrice := "0", GasTipCap := "0", GasFeeCap := "0",
                DataSize := 0, Data4Bytes := "", Sources := ["a", "b"],
                IncludedAtBlockHeight := 5 })] "a" "b").filterMap (fun h =>
              if deltaOf [("0xh1", [("a", 1000), ("b", 1200)])] "a" "b" h < 0
              then some (-(deltaOf [("0xh1", [("a", 1000), ("b", 1200)])] "a" "b" h))
              else none)
          totalSeenByBoth := (latencyQual
            [("0xh1",
              { Timestamp := 1000, Hash := "0xh1", ChainID := "1", From := "",
                To := "", Value := "0", Nonce := "0", Gas := "0",
                GasPrice := "0", GasTipCap := "0", GasFeeCap := "0",
                DataSize := 0, Data4Bytes := "", Sources := ["a", "b"],
                IncludedAtBlockHeight := 5 })] "a" "b").length }) ∧
      latencyComp
          [("0xh1",
            { Timestamp := 1000, Hash := "0xh1", ChainID := "1", From := "",
              To := "", Value := "0", Nonce := "0", Gas := "0", GasPrice := "0",
              GasTipCap := "0", GasFeeCap := "0", DataSize := 0,
              Data4Bytes := "", Sources := ["a", "b"],
              IncludedAtBlockHeight := 5 })]
          [("0xh1", [("a", 1000), ("b", 1200)])] "a" "b" =
        { srcH := [200], refH := [], totalSeenByBoth := 1 } :=
  ⟨by decide,
    latencyComp_spec _ _ "a" "b" (by decide) (by decide) (by decide),
    by decide⟩

end Mempool
